import Mathlib

/-!
The lxtap material writer of sokol-shdc.

A shallow embedding of `src/shdc/lxtap.h` (the binary records, the container
wrappers and the top-level writer) and of `src/shdc/lxtap.cc` (the reflection
pass, the payload pass and the driver), followed by theorems about them.

Conventions of the embedding:

* a `std::ostringstream` is the list of bytes appended so far; every `write`
  takes the stream and returns the stream after the call;
* unsigned machine integers are natural numbers; a conversion to `uint16_t`
  is an explicit `% 65536`, and `write_binary` keeps only the low `sizeof(T)`
  bytes of the value it is given;
* the host is little-endian, so the object representation that
  `write_binary` copies out is least significant byte first;
* a `std::string` is the list of its bytes.
-/

set_option autoImplicit false

namespace lx.m

/-! ## Primitive encoder -/

/-- The output string stream: the bytes written so far, oldest first. -/
abbrev ostringstream := List Nat

/-- Object representation of an unsigned integer `p` of `n` bytes on a
little-endian host: the `n` low bytes of `p`, least significant first. -/
def object_bytes : Nat → Nat → List Nat
  | 0, _ => []
  | n + 1, p => p % 256 :: object_bytes n (p / 256)

/-- Embeds `write_binary<T>(oss, p)`: `oss.write((char const*)&p, sizeof(T))`. -/
def write_binary (sizeof_T : Nat) (oss : ostringstream) (p : Nat) : ostringstream :=
  oss ++ object_bytes sizeof_T p

/-- Embeds `struct bytes`: a `str_size size` (16 bits) and the string itself. -/
structure bytes where
  size : Nat
  str : List Nat
deriving DecidableEq

/-- The constructor `bytes(const std::string& s = "")`: `size = s.size()`,
converted to `str_size`. -/
def bytes.ctor (s : List Nat) : bytes :=
  { size := s.length % 65536, str := s }

/-- Embeds `bytes::struct_size`: `str.size() + sizeof(size)` returned as `uint16_t`. -/
def bytes.struct_size (b : bytes) : Nat :=
  (b.str.length + 2) % 65536

/-- Embeds `bytes::write`: the size field, then `str.size()` bytes of the string. -/
def bytes.write (b : bytes) (oss : ostringstream) : ostringstream :=
  let oss := write_binary 2 oss b.size
  oss ++ b.str

/-! ## Composite records -/

/-- What the templates `array<T>` and `optional<T>` ask of `T`: the member
functions `struct_size()` and `write(oss)`. -/
class Record (T : Type) where
  struct_size : T → Nat
  write : T → ostringstream → ostringstream

/-- Embeds `enum class attr_type : std::uint8_t`, by numeric value. -/
abbrev attr_type := Nat

def attr_type.INVALID : attr_type := 0
def attr_type.FLOAT1 : attr_type := 1
def attr_type.FLOAT2 : attr_type := 2
def attr_type.FLOAT3 : attr_type := 3
def attr_type.FLOAT4 : attr_type := 4
def attr_type.MAT4 : attr_type := 5

/-- Embeds `struct attr_t`: `uint16_t slot`, `bytes name`, `attr_type type`. -/
structure attr_t where
  slot : Nat
  name : bytes
  type : attr_type
deriving DecidableEq

/-- Embeds `attr_t::struct_size`: `sizeof(slot) + name.struct_size() + sizeof(type)`
returned as `uint16_t`. -/
def attr_t.struct_size (a : attr_t) : Nat :=
  (2 + a.name.struct_size + 1) % 65536

/-- Embeds `attr_t::write`. -/
def attr_t.write (a : attr_t) (oss : ostringstream) : ostringstream :=
  let oss := write_binary 2 oss a.struct_size
  let oss := write_binary 2 oss a.slot
  let oss := a.name.write oss
  write_binary 1 oss a.type

instance : Record attr_t := ⟨attr_t.struct_size, attr_t.write⟩

/-- Embeds `template <typename T> struct array`: a `std::vector<T>`. -/
structure array (T : Type) where
  arr : List T
deriving DecidableEq

/-- Embeds `array<T>::struct_size`: a `uint16_t` accumulator `s` to which every
element's `struct_size()` is added, then `sizeof(uint16_t) + s` returned as
`uint16_t`. -/
def array.struct_size {T : Type} [Record T] (a : array T) : Nat :=
  let s := a.arr.foldl (fun s t => (s + Record.struct_size t) % 65536) 0
  (2 + s) % 65536

/-- Embeds `array<T>::write`: `uint16_t size = arr.size()`, written first, then
every element's `write` in vector order. -/
def array.write {T : Type} [Record T] (a : array T) (oss : ostringstream) : ostringstream :=
  let size := a.arr.length % 65536
  let oss := write_binary 2 oss size
  a.arr.foldl (fun oss t => Record.write t oss) oss

instance {T : Type} [Record T] : Record (array T) := ⟨array.struct_size, array.write⟩

/-- Embeds `struct uniform_t`: `bytes name`, `attr_type type`, `uint8_t array_count`,
`uint8_t offset`. -/
structure uniform_t where
  name : bytes
  type : attr_type
  array_count : Nat
  offset : Nat
deriving DecidableEq

/-- Embeds `uniform_t::struct_size`. -/
def uniform_t.struct_size (u : uniform_t) : Nat :=
  (u.name.struct_size + 1 + 1 + 1) % 65536

/-- Embeds `uniform_t::write`. -/
def uniform_t.write (u : uniform_t) (oss : ostringstream) : ostringstream :=
  let oss := write_binary 2 oss u.struct_size
  let oss := u.name.write oss
  let oss := write_binary 1 oss u.type
  let oss := write_binary 1 oss u.array_count
  write_binary 1 oss u.offset

instance : Record uniform_t := ⟨uniform_t.struct_size, uniform_t.write⟩

/-- Embeds `struct uniform_block_t`: `uint8_t slot`, `bytes name`, `uint8_t size`,
`array<uniform_t> params`. -/
structure uniform_block_t where
  slot : Nat
  name : bytes
  size : Nat
  params : array uniform_t
deriving DecidableEq

/-- Embeds `uniform_block_t::struct_size`:
`sizeof(slot) + name.struct_size() + sizeof(size) + params.struct_size()`
returned as `uint16_t`. -/
def uniform_block_t.struct_size (b : uniform_block_t) : Nat :=
  (1 + b.name.struct_size + 1 + b.params.struct_size) % 65536

/-- Embeds `uniform_block_t::write`. -/
def uniform_block_t.write (b : uniform_block_t) (oss : ostringstream) : ostringstream :=
  let oss := write_binary 2 oss b.struct_size
  let oss := write_binary 1 oss b.slot
  let oss := b.name.write oss
  let oss := write_binary 1 oss b.size
  b.params.write oss

instance : Record uniform_block_t := ⟨uniform_block_t.struct_size, uniform_block_t.write⟩

/-- Embeds `enum class texture_type : std::uint8_t`, by numeric value. -/
abbrev texture_type := Nat

def texture_type.INVALID : texture_type := 0
def texture_type.IMAGE_2D : texture_type := 1
def texture_type.IMAGE_CUBE : texture_type := 2
def texture_type.IMAGE_3D : texture_type := 3
def texture_type.IMAGE_ARRAY : texture_type := 4

/-- Embeds `struct texture_t`: `uint8_t slot`, `bytes name`, `texture_type type`. -/
structure texture_t where
  slot : Nat
  name : bytes
  type : texture_type
deriving DecidableEq

/-- Embeds `texture_t::struct_size`. -/
def texture_t.struct_size (t : texture_t) : Nat :=
  (1 + t.name.struct_size + 1) % 65536

/-- Embeds `texture_t::write`. -/
def texture_t.write (t : texture_t) (oss : ostringstream) : ostringstream :=
  let oss := write_binary 2 oss t.struct_size
  let oss := write_binary 1 oss t.slot
  let oss := t.name.write oss
  write_binary 1 oss t.type

instance : Record texture_t := ⟨texture_t.struct_size, texture_t.write⟩

/-- Embeds `enum class lang_type : std::uint8_t`, by numeric value. -/
abbrev lang_type := Nat

def lang_type.GLSL330 : lang_type := 0
def lang_type.GLSL100 : lang_type := 1
def lang_type.GLSL300ES : lang_type := 2
def lang_type.HLSL5 : lang_type := 3
def lang_type.METAL_MACOS : lang_type := 4
def lang_type.METAL_IOS : lang_type := 5
def lang_type.METAL_SIM : lang_type := 6
def lang_type.NUM : lang_type := 7

/-- Embeds `enum class source_type : std::uint8_t`, by numeric value. -/
abbrev source_type := Nat

def source_type.SourceCode : source_type := 0
def source_type.ByteCode : source_type := 1

/-- Embeds `struct shader_t`: `source_type src_type`, `bytes source`. -/
structure shader_t where
  src_type : source_type
  source : bytes
deriving DecidableEq

/-- Embeds `shader_t::struct_size`. -/
def shader_t.struct_size (s : shader_t) : Nat :=
  (1 + s.source.struct_size) % 65536

/-- Embeds `shader_t::write`. -/
def shader_t.write (s : shader_t) (oss : ostringstream) : ostringstream :=
  let oss := write_binary 2 oss s.struct_size
  let oss := write_binary 1 oss s.src_type
  s.source.write oss

instance : Record shader_t := ⟨shader_t.struct_size, shader_t.write⟩

/-- Embeds `struct program_t`: `lang_type lang`, `shader_t vs`, `shader_t fs`. -/
structure program_t where
  lang : lang_type
  vs : shader_t
  fs : shader_t
deriving DecidableEq

/-- Embeds `program_t::struct_size`:
`sizeof(lang) + vs.struct_size() + fs.struct_size()` returned as `uint16_t`. -/
def program_t.struct_size (p : program_t) : Nat :=
  (1 + p.vs.struct_size + p.fs.struct_size) % 65536

/-- Embeds `program_t::write`. -/
def program_t.write (p : program_t) (oss : ostringstream) : ostringstream :=
  let oss := write_binary 2 oss p.struct_size
  let oss := write_binary 1 oss p.lang
  let oss := p.vs.write oss
  p.fs.write oss

instance : Record program_t := ⟨program_t.struct_size, program_t.write⟩

/-- Embeds `struct header_t` with its default member initialisers. -/
structure header_t where
  place0 : Nat := 0xCF
  place1 : Nat := 0xBA
  version : Nat := 1
deriving DecidableEq

/-- Embeds `header_t::write`. -/
def header_t.write (h : header_t) (oss : ostringstream) : ostringstream :=
  let oss := write_binary 1 oss h.place0
  let oss := write_binary 1 oss h.place1
  write_binary 2 oss h.version

/-! ## Container wrappers -/

/-- Embeds `template<typename T> struct optional`: `T value` and
`bool is_empty = true`. -/
structure optional (T : Type) where
  value : T
  is_empty : Bool := true
deriving DecidableEq

/-- Embeds `optional<T>::write`. -/
def optional.write {T : Type} [Record T] (o : optional T) (oss : ostringstream) : ostringstream :=
  let empty := 0x00
  let exist := 0x01
  if !o.is_empty then
    let oss := oss ++ [exist]
    Record.write o.value oss
  else
    oss ++ [empty]

/-- Embeds `optional<T>::fill`. -/
def optional.fill {T : Type} (o : optional T) : optional T :=
  { o with is_empty := false }

/-! ## Top-level writer -/

/-- Embeds `struct WriteContext`. -/
structure WriteContext where
  attrs : array attr_t
  vs_uniform_block : optional uniform_block_t
  fs_uniform_block : optional uniform_block_t
  fs_textures : optional (array texture_t)
  programs : array program_t
deriving DecidableEq

/-- Embeds `WriteContext::write`. -/
def WriteContext.write (ctx : WriteContext) (oss : ostringstream) : ostringstream :=
  let h : header_t := {}
  let oss := h.write oss
  let oss := ctx.attrs.write oss
  let oss := ctx.vs_uniform_block.write oss
  let oss := ctx.fs_uniform_block.write oss
  let oss := ctx.fs_textures.write oss
  ctx.programs.write oss

/-- Embeds `Writer::gen`: write the context into a fresh stream and return its
contents. -/
def Writer.gen (ctx : WriteContext) : List Nat :=
  let oss : ostringstream := []
  ctx.write oss

end lx.m

namespace shdc

/-! ## The input of lxtap.cc

`shdc.h`, which declares what the passes of `lxtap.cc` read (`input_t`,
`snippet_t`, `program_t`, `spirvcross_t`, `bytecode_t` and the reflection
records), is not among the sources. The declarations below carry the members
that `lxtap.cc` reads, with the types it reads them at: `int` members are
integers, enumerations are their numeric values, strings are byte lists,
vectors are lists and a `std::map` is the list of its entries in key order. -/

/-- Modelled from the spec: `snippet_t::type_t` of the absent `shdc.h`; a
snippet is a fragment of shader source designated as vertex (`VS`) or fragment
(`FS`) stage, or neither. -/
inductive snippet_t.type_t where
  | INVALID
  | BLOCK
  | VS
  | FS
deriving DecidableEq

/-- Modelled from the spec: `snippet_t` of the absent `shdc.h`, reduced to
the member the passes read, its stage designation. -/
structure snippet_t where
  type : snippet_t.type_t
deriving DecidableEq

/-- Modelled from the spec: `program_t` of the absent `shdc.h`: a logical
program, the pairing of one vertex snippet and one fragment snippet, each
referred to by name. -/
structure program_t where
  name : List Nat
  vs_name : List Nat
  fs_name : List Nat
deriving DecidableEq

/-- Modelled from the spec: `input_t` of the absent `shdc.h`: the snippets,
the map from snippet name to snippet index and the map from program name to
program. -/
structure input_t where
  snippets : List snippet_t
  snippet_map : List (List Nat × Int) := []
  programs : List (List Nat × program_t) := []
deriving DecidableEq

/-- Modelled from the spec: `attr_t` of the absent `shdc.h`: one reflected
vertex input, `int slot` (negative when unused), name and type. -/
structure attr_t where
  slot : Int
  name : List Nat
  type : Nat
deriving DecidableEq

/-- Modelled from the spec: `uniform_t` of the absent `shdc.h`: one member of
a reflected uniform block, name, type, `int array_count`, `int offset`. -/
structure uniform_t where
  name : List Nat
  type : Nat
  array_count : Int
  offset : Int
deriving DecidableEq

/-- Modelled from the spec: `uniform_block_t` of the absent `shdc.h`: a
reflected uniform block, `int slot`, `int size`, name and members. -/
structure uniform_block_t where
  slot : Int
  size : Int
  name : List Nat
  uniforms : List uniform_t
deriving DecidableEq

/-- Modelled from the spec: `image_t` of the absent `shdc.h`: one reflected
image binding, `int slot`, name and dimensionality. -/
structure image_t where
  slot : Int
  name : List Nat
  type : Nat
deriving DecidableEq

/-- Modelled from the spec: `spirvcross_refl_t` of the absent `shdc.h`: the
reflection record set of one stage: inputs, uniform blocks with members,
image bindings. -/
structure spirvcross_refl_t where
  inputs : List attr_t := []
  uniform_blocks : List uniform_block_t := []
  images : List image_t := []
deriving DecidableEq

/-- Modelled from the spec: `spirvcross_source_t` of the absent `shdc.h`: the
source text and the reflection generated for one snippet in one target
language. -/
structure spirvcross_source_t where
  snippet_index : Int
  source_code : List Nat
  refl : spirvcross_refl_t := {}
deriving DecidableEq

/-- Modelled from the spec: `spirvcross_t` of the absent `shdc.h`: the
generated sources of one target language. -/
structure spirvcross_t where
  sources : List spirvcross_source_t
deriving DecidableEq

/-- Modelled from the spec: `bytecode_blob_t` of the absent `shdc.h`: the
compiled binary payload of one snippet. -/
structure bytecode_blob_t where
  snippet_index : Int
  data : List Nat
deriving DecidableEq

/-- Modelled from the spec: `bytecode_t` of the absent `shdc.h`: the blobs of
one target language. -/
structure bytecode_t where
  blobs : List bytecode_blob_t
deriving DecidableEq

/-- Position of the first element of the list, counted from `i`, whose key is
`k`; `-1` when there is none. -/
def find_index_from {α : Type} (key : α → Int) (k : Int) : List α → Int → Int
  | [], _ => -1
  | x :: xs, i => if key x = k then i else find_index_from key k xs (i + 1)

/-- Modelled from the spec: `spirvcross_t::find_source_by_snippet_index` of
the absent `spirvcross.cc`: the index of the source record generated for the
snippet, `-1` when the snippet has none (lxtap.cc asserts `>= 0`). -/
def spirvcross_t.find_source_by_snippet_index (s : spirvcross_t) (snippet_index : Int) : Int :=
  find_index_from spirvcross_source_t.snippet_index snippet_index s.sources 0

/-- Modelled from the spec: `bytecode_t::find_blob_by_snippet_index` of the
absent `bytecode.cc`: the index of the blob compiled for the snippet, `-1`
when the snippet has none (lxtap.cc tests `!= -1`). -/
def bytecode_t.find_blob_by_snippet_index (b : bytecode_t) (snippet_index : Int) : Int :=
  find_index_from bytecode_blob_t.snippet_index snippet_index b.blobs 0

/-- The call `std::map::at(key)`: the mapped value, `none` where `at` throws
`std::out_of_range`. -/
def map_at {α : Type} (m : List (List Nat × α)) (key : List Nat) : Option α :=
  match m.find? (fun e => e.1 = key) with
  | some e => some e.2
  | none => none

/-- The value of `static lx::m::WriteContext mat_ctx` before any pass has
run: static storage is zero-initialised, the vectors and strings are empty
and every `optional` has `is_empty = true`. -/
def mat_ctx : lx.m.WriteContext :=
  { attrs := ⟨[]⟩
    vs_uniform_block := { value := ⟨0, lx.m.bytes.ctor [], 0, ⟨[]⟩⟩ }
    fs_uniform_block := { value := ⟨0, lx.m.bytes.ctor [], 0, ⟨[]⟩⟩ }
    fs_textures := { value := ⟨[]⟩ }
    programs := ⟨[]⟩ }

/-! ## The reflection pass -/

/-- The loop over `vs_src.refl.inputs`: an input with `slot >= 0` is pushed as
an `lx::m::attr_t`, the `int` slot converted to `uint16_t` and the type cast
to the one-byte `attr_type`. -/
def push_attrs (inputs : List attr_t) (arr : List lx.m.attr_t) : List lx.m.attr_t :=
  inputs.foldl (fun arr attr =>
    if attr.slot ≥ 0 then
      arr ++ [{ slot := (attr.slot % 65536).toNat, name := lx.m.bytes.ctor attr.name,
                type := attr.type % 256 }]
    else arr) arr

/-- The body of either uniform block loop on the block `muniform_block` it
refers to: name, slot and size are assigned (`int` to `uint8_t`), and every
uniform of `ub` is pushed onto `params`. -/
def merge_block (ub : uniform_block_t) (muniform_block : lx.m.uniform_block_t) :
    lx.m.uniform_block_t :=
  let muniform_block := { muniform_block with name := lx.m.bytes.ctor ub.name }
  let muniform_block := { muniform_block with slot := (ub.slot % 256).toNat }
  let muniform_block := { muniform_block with size := (ub.size % 256).toNat }
  ub.uniforms.foldl (fun m uniform =>
    let mu : lx.m.uniform_t :=
      { name := lx.m.bytes.ctor uniform.name, type := uniform.type % 256,
        offset := (uniform.offset % 256).toNat,
        array_count := (uniform.array_count % 256).toNat }
    { m with params := ⟨m.params.arr ++ [mu]⟩ }) muniform_block

/-- The loop over `vs_src.refl.uniform_blocks`: `mat_ctx.vs_uniform_block.fill()`
and the block merged into `mat_ctx.vs_uniform_block.value`. -/
def vs_uniforms (blocks : List uniform_block_t) (ctx : lx.m.WriteContext) : lx.m.WriteContext :=
  blocks.foldl (fun ctx ub =>
    let ctx := { ctx with vs_uniform_block := ctx.vs_uniform_block.fill }
    { ctx with vs_uniform_block :=
        { ctx.vs_uniform_block with value := merge_block ub ctx.vs_uniform_block.value } }) ctx

/-- The loop over `fs_src.refl.uniform_blocks`: the call is
`mat_ctx.vs_uniform_block.fill()` here too, and the block is merged into
`mat_ctx.fs_uniform_block.value`. -/
def fs_uniforms (blocks : List uniform_block_t) (ctx : lx.m.WriteContext) : lx.m.WriteContext :=
  blocks.foldl (fun ctx ub =>
    let ctx := { ctx with vs_uniform_block := ctx.vs_uniform_block.fill }
    { ctx with fs_uniform_block :=
        { ctx.fs_uniform_block with value := merge_block ub ctx.fs_uniform_block.value } }) ctx

/-- The loop over `fs_src.refl.images`: `mat_ctx.fs_textures.fill()` and an
`lx::m::texture_t` pushed (`int` slot to `uint8_t`). -/
def push_images (images : List image_t) (ctx : lx.m.WriteContext) : lx.m.WriteContext :=
  images.foldl (fun ctx img =>
    let ctx := { ctx with fs_textures := ctx.fs_textures.fill }
    let mt : lx.m.texture_t :=
      { name := lx.m.bytes.ctor img.name, slot := (img.slot % 256).toNat, type := img.type % 256 }
    { ctx with fs_textures :=
        { ctx.fs_textures with value := ⟨ctx.fs_textures.value.arr ++ [mt]⟩ } }) ctx

/-- The body of the loop over `inp.programs` in `lxtap_write_header`; `none`
when a `snippet_map.at` throws or the assertion
`(vs_src_index >= 0) && (fs_src_index >= 0)` fails. -/
def write_header_body (inp : input_t) (spirvcross : spirvcross_t) (prog : program_t)
    (ctx : lx.m.WriteContext) : Option lx.m.WriteContext :=
  match map_at inp.snippet_map prog.vs_name, map_at inp.snippet_map prog.fs_name with
  | some vs_snippet_index, some fs_snippet_index =>
    let vs_src_index := spirvcross.find_source_by_snippet_index vs_snippet_index
    let fs_src_index := spirvcross.find_source_by_snippet_index fs_snippet_index
    if vs_src_index ≥ 0 ∧ fs_src_index ≥ 0 then
      match spirvcross.sources[vs_src_index.toNat]?, spirvcross.sources[fs_src_index.toNat]? with
      | some vs_src, some fs_src =>
        let ctx := { ctx with attrs := ⟨push_attrs vs_src.refl.inputs ctx.attrs.arr⟩ }
        let ctx := vs_uniforms vs_src.refl.uniform_blocks ctx
        let ctx := fs_uniforms fs_src.refl.uniform_blocks ctx
        some (push_images fs_src.refl.images ctx)
      | _, _ => none
    else none
  | _, _ => none

/-- Embeds `lxtap_write_header(args, inp, spirvcross)` as a function of the
context it updates (`args` is not read): the loop over `inp.programs`. -/
def lxtap_write_header (inp : input_t) (spirvcross : spirvcross_t)
    (ctx : lx.m.WriteContext) : Option lx.m.WriteContext :=
  inp.programs.foldl (fun ctx item =>
    match ctx with
    | none => none
    | some ctx => write_header_body inp spirvcross item.2 ctx) (some ctx)

/-! ## The payload pass -/

/-- The local `lx::m::program_t prog;` after `prog.lang = (lx::m::lang_type)slang`.
The local is default-initialised: both `source` members are `bytes("")`, the
two `src_type` members are not initialised and hold whatever the stack held,
here `u_vs` and `u_fs`. -/
def new_prog (slang : Nat) (u_vs u_fs : lx.m.source_type) : lx.m.program_t :=
  { lang := slang % 256
    vs := { src_type := u_vs, source := lx.m.bytes.ctor [] }
    fs := { src_type := u_fs, source := lx.m.bytes.ctor [] } }

/-- The search `for (lx::m::program_t& p: mprogs) if ((int)p.lang == (int)slang)`:
the index of the first program with the language, if any. -/
def find_current_p (slang : Nat) : List lx.m.program_t → Option Nat
  | [] => none
  | p :: ps => if p.lang = slang then some 0 else (find_current_p slang ps).map (· + 1)

/-- The statements of the loop body from `lx::m::shader_t& ms = current_p->vs;`
on, applied to the program `*current_p`. `ms` is a reference bound to
`current_p->vs` for good: `ms = current_p->vs` assigns `vs` to itself,
`ms = current_p->fs` copies `fs` into `vs`, and the two assignments to
`ms.src_type` and `ms.source` store into `vs`. -/
def attach (type : snippet_t.type_t) (source_code : List Nat)
    (blob : Option bytecode_blob_t) (p : lx.m.program_t) : lx.m.program_t :=
  let p : lx.m.program_t :=
    if type = .VS then { p with vs := p.vs }
    else if type = .FS then { p with vs := p.fs }
    else p
  match blob with
  | some b =>
    { p with vs := { src_type := lx.m.source_type.ByteCode, source := lx.m.bytes.ctor b.data } }
  | none =>
    { p with vs := { src_type := lx.m.source_type.SourceCode,
                     source := lx.m.bytes.ctor source_code } }

/-- One iteration of the loop of `lxtap_write_shader_sources_and_blobs`, for
the snippet at `snippet_index`; `none` when `assert(src_index >= 0)` fails. -/
def loop_body (spirvcross : spirvcross_t) (bytecode : bytecode_t) (slang : Nat)
    (u_vs u_fs : lx.m.source_type) (snippet : snippet_t) (snippet_index : Nat)
    (mprogs : List lx.m.program_t) : Option (List lx.m.program_t) :=
  if snippet.type ≠ .VS ∧ snippet.type ≠ .FS then
    some mprogs
  else
    let src_index := spirvcross.find_source_by_snippet_index snippet_index
    if src_index < 0 then none
    else
      match spirvcross.sources[src_index.toNat]? with
      | none => none
      | some src =>
        let blob_index := bytecode.find_blob_by_snippet_index snippet_index
        let blob : Option bytecode_blob_t :=
          if blob_index ≠ -1 then bytecode.blobs[blob_index.toNat]? else none
        let (mprogs, current_p) :=
          match find_current_p slang mprogs with
          | some i => (mprogs, i)
          | none => (mprogs ++ [new_prog slang u_vs u_fs], mprogs.length)
        match mprogs[current_p]? with
        | none => none
        | some p => some (mprogs.set current_p (attach snippet.type src.source_code blob p))

/-- The loop `for (snippet_index = 0; snippet_index < inp.snippets.size(); snippet_index++)`,
entered at `snippet_index` with the snippets still to visit. -/
def snippet_loop (spirvcross : spirvcross_t) (bytecode : bytecode_t) (slang : Nat)
    (u_vs u_fs : lx.m.source_type) :
    List snippet_t → Nat → List lx.m.program_t → Option (List lx.m.program_t)
  | [], _, mprogs => some mprogs
  | snippet :: rest, snippet_index, mprogs =>
    match loop_body spirvcross bytecode slang u_vs u_fs snippet snippet_index mprogs with
    | none => none
    | some mprogs => snippet_loop spirvcross bytecode slang u_vs u_fs rest (snippet_index + 1) mprogs

/-- Embeds `lxtap_write_shader_sources_and_blobs(inp, spirvcross, bytecode, slang)`
as a function of the context it updates; `u_vs` and `u_fs` are the
uninitialised `src_type` bytes of a newly created program. -/
def lxtap_write_shader_sources_and_blobs (inp : input_t) (spirvcross : spirvcross_t)
    (bytecode : bytecode_t) (slang : Nat) (u_vs u_fs : lx.m.source_type)
    (ctx : lx.m.WriteContext) : Option lx.m.WriteContext :=
  match snippet_loop spirvcross bytecode slang u_vs u_fs inp.snippets 0 ctx.programs.arr with
  | none => none
  | some mprogs => some { ctx with programs := ⟨mprogs⟩ }

/-! ## The driver `lxtap_t::gen` -/

/-- Modelled from the spec: `args_t` of the absent `shdc.h`, reduced to the
member the driver tests: `slang`, the bit set of the requested target
languages. -/
structure args_t where
  slang : Nat
deriving DecidableEq

/-- Modelled from the spec: `slang_t::NUM` of the absent `shdc.h`, the number
of target languages; `lx::m::lang_type`, which the language tags are cast to,
has the same seven. -/
def slang_t.NUM : Nat := 7

/-- Modelled from the spec: `slang_t::bit(slang)` of the absent `shdc.h`, the
bit that stands for the language in `args.slang`. -/
def slang_t.bit (slang : Nat) : Nat := 2 ^ slang

/-- How a call of `lxtap_t::gen` ends. -/
inductive gen_end where
  /-- The call `output_t::check_errors` reported an error, which is returned. -/
  | check_failed
  /-- The material has not exactly one program: `exit(1)`. -/
  | usage_exit
  /-- A pass stopped on a failed assertion or a thrown `std::out_of_range`. -/
  | pass_aborted
  /-- The output file could not be opened: an error is returned, nothing written. -/
  | open_failed
  /-- The output file was written with these bytes. -/
  | written (file_content : List Nat)
deriving DecidableEq

/-- The loop `for (int i = 0; i < slang_t::NUM; i++)` of `lxtap_t::gen`,
entered at language `i` with `fuel` languages to go. The state is the flag
`comment_header_written` and the context `mat_ctx`; the result is the context
after the loop, or how the call ended inside it. `check_errors` stands for
the absent `output_t::check_errors` (true when it reports an error). -/
def gen_loop (args : args_t) (inp : input_t) (spirvcross : Nat → spirvcross_t)
    (bytecode : Nat → bytecode_t) (check_errors : input_t → spirvcross_t → Nat → Bool)
    (u_vs u_fs : lx.m.source_type) :
    Nat → Nat → Bool → lx.m.WriteContext → Except gen_end lx.m.WriteContext
  | 0, _, _, ctx => .ok ctx
  | fuel + 1, i, comment_header_written, ctx =>
    let slang := i
    if args.slang &&& slang_t.bit slang ≠ 0 then
      if check_errors inp (spirvcross i) slang then .error .check_failed
      else
        let header : Except gen_end lx.m.WriteContext :=
          if !comment_header_written then
            if inp.programs.length ≠ 1 then .error .usage_exit
            else
              match lxtap_write_header inp (spirvcross i) ctx with
              | none => .error .pass_aborted
              | some ctx => .ok ctx
          else .ok ctx
        match header with
        | .error e => .error e
        | .ok ctx =>
          match lxtap_write_shader_sources_and_blobs inp (spirvcross i) (bytecode i) slang
              u_vs u_fs ctx with
          | none => .error .pass_aborted
          | some ctx =>
            gen_loop args inp spirvcross bytecode check_errors u_vs u_fs fuel (i + 1) true ctx
    else
      gen_loop args inp spirvcross bytecode check_errors u_vs u_fs fuel (i + 1)
        comment_header_written ctx

/-- Embeds `lxtap_t::gen(args, inp, spirvcross, bytecode)`, run on the fresh
`mat_ctx`: the loop over the languages, `lxtap_write_end`, and the write of
the output file, which `fopen_ok` says can be opened or not. -/
def lxtap_t.gen (args : args_t) (inp : input_t) (spirvcross : Nat → spirvcross_t)
    (bytecode : Nat → bytecode_t) (check_errors : input_t → spirvcross_t → Nat → Bool)
    (u_vs u_fs : lx.m.source_type) (fopen_ok : Bool) : gen_end :=
  match gen_loop args inp spirvcross bytecode check_errors u_vs u_fs slang_t.NUM 0 false
      mat_ctx with
  | .error e => e
  | .ok ctx =>
    let file_content := lx.m.Writer.gen ctx
    if !fopen_ok then .open_failed else .written file_content

/-! ## Readings of the passes

Named pieces of the two passes and of the driver, for stating what the
passes compute. -/

/-- The local `lx::m::attr_t mattr` that the attribute loop builds from one
reflected input: the `int` slot converted to `uint16_t`, the name through
`bytes(name)`, the type cast to the one-byte `attr_type`. -/
def to_mattr (attr : attr_t) : lx.m.attr_t :=
  { slot := (attr.slot % 65536).toNat, name := lx.m.bytes.ctor attr.name,
    type := attr.type % 256 }

/-- The local `lx::m::uniform_t mu` that a uniform block loop builds from one
reflected uniform: offset and array count converted from `int` to `uint8_t`. -/
def to_mu (uniform : uniform_t) : lx.m.uniform_t :=
  { name := lx.m.bytes.ctor uniform.name, type := uniform.type % 256,
    offset := (uniform.offset % 256).toNat,
    array_count := (uniform.array_count % 256).toNat }

/-- The local `lx::m::texture_t mt` that the image loop builds from one
reflected image binding: the `int` slot converted to `uint8_t`. -/
def to_mt (img : image_t) : lx.m.texture_t :=
  { name := lx.m.bytes.ctor img.name, slot := (img.slot % 256).toNat, type := img.type % 256 }

/-- The first statements of the body of the loop of `lxtap_write_header`: the
two `snippet_map.at`, the two `find_source_by_snippet_index`, the assertion,
and the two source records `vs_src` and `fs_src` they lead to. -/
def program_sources (inp : input_t) (spirvcross : spirvcross_t) (prog : program_t) :
    Option (spirvcross_source_t × spirvcross_source_t) :=
  match map_at inp.snippet_map prog.vs_name, map_at inp.snippet_map prog.fs_name with
  | some vs_snippet_index, some fs_snippet_index =>
    let vs_src_index := spirvcross.find_source_by_snippet_index vs_snippet_index
    let fs_src_index := spirvcross.find_source_by_snippet_index fs_snippet_index
    if vs_src_index ≥ 0 ∧ fs_src_index ≥ 0 then
      match spirvcross.sources[vs_src_index.toNat]?, spirvcross.sources[fs_src_index.toNat]? with
      | some vs_src, some fs_src => some (vs_src, fs_src)
      | _, _ => none
    else none
  | _, _ => none

/-- What the last statements of the payload loop body store through `ms`:
kind ByteCode and the blob's bytes when the snippet has a blob, kind
SourceCode and the generated source text otherwise. -/
def stored (source_code : List Nat) (blob : Option bytecode_blob_t) : lx.m.shader_t :=
  match blob with
  | some b => { src_type := lx.m.source_type.ByteCode, source := lx.m.bytes.ctor b.data }
  | none => { src_type := lx.m.source_type.SourceCode, source := lx.m.bytes.ctor source_code }

/-- The test `args.slang & slang_t::bit(slang)` of the driver's loop. -/
def is_requested (args : args_t) (slang : Nat) : Bool :=
  args.slang &&& slang_t.bit slang != 0

/-- The languages the driver's loop processes, in the order it meets them. -/
def requested (args : args_t) : List Nat :=
  (List.range slang_t.NUM).filter (is_requested args)

/-! ## A material with one program

The input the passes are tried on: a vertex snippet `vs` and a fragment
snippet `fs`, in that order, paired by the program `p`. -/

/-- The input: snippet 0 is the vertex snippet `vs` (bytes 118, 115), snippet
1 the fragment snippet `fs` (bytes 102, 115), and program `p` (byte 112)
pairs them. -/
def one_program : input_t :=
  { snippets := [⟨.VS⟩, ⟨.FS⟩]
    snippet_map := [([102, 115], 1), ([118, 115], 0)]
    programs := [([112], { name := [112], vs_name := [118, 115], fs_name := [102, 115] })] }

/-- The same material with the fragment snippet first. -/
def one_program_fs_first : input_t :=
  { snippets := [⟨.FS⟩, ⟨.VS⟩]
    snippet_map := [([102, 115], 0), ([118, 115], 1)]
    programs := [([112], { name := [112], vs_name := [118, 115], fs_name := [102, 115] })] }

/-- The sources generated for `one_program`: the text `v` (byte 118) for the
vertex snippet and `f` (byte 102) for the fragment snippet. -/
def one_program_sources : spirvcross_t :=
  { sources := [{ snippet_index := 0, source_code := [118] },
                { snippet_index := 1, source_code := [102] }] }

/-- The sources generated for `one_program_fs_first`. -/
def one_program_fs_first_sources : spirvcross_t :=
  { sources := [{ snippet_index := 0, source_code := [102] },
                { snippet_index := 1, source_code := [118] }] }

/-- The program `p` of `one_program`. -/
def the_program : program_t :=
  { name := [112], vs_name := [118, 115], fs_name := [102, 115] }

/-- A reflection of the vertex stage: input `p` in slot 0, an unused input
(slot -1), input `n` in slot 1; uniform block `a` (slot 0, 64 bytes, one
member) and uniform block `b` (slot 1, 32 bytes, two members). -/
def sample_vs_refl : spirvcross_refl_t :=
  { inputs := [⟨0, [112], 3⟩, ⟨-1, [], 0⟩, ⟨1, [110], 3⟩]
    uniform_blocks :=
      [⟨0, 64, [97], [⟨[109], 5, 1, 0⟩]⟩,
       ⟨1, 32, [98], [⟨[99], 4, 1, 0⟩, ⟨[100], 4, 1, 16⟩]⟩] }

/-- A reflection of the fragment stage: uniform block `c` (slot 0, 16 bytes,
one member) and the image bindings `t` (slot 0, 2D) and `u` (slot 1, cube). -/
def sample_fs_refl : spirvcross_refl_t :=
  { uniform_blocks := [⟨0, 16, [99], [⟨[111], 4, 1, 0⟩]⟩]
    images := [⟨0, [116], 1⟩, ⟨1, [117], 2⟩] }

/-- The sources of `one_program_sources`, each with its reflection. -/
def one_program_reflection : spirvcross_t :=
  { sources := [{ snippet_index := 0, source_code := [118], refl := sample_vs_refl },
                { snippet_index := 1, source_code := [102], refl := sample_fs_refl }] }

/-- Sources whose only reflection is one fragment-stage uniform block `c`
(slot 2, 16 bytes, one member `o`). -/
def fs_block_only : spirvcross_t :=
  { sources := [{ snippet_index := 0, source_code := [118] },
                { snippet_index := 1, source_code := [102],
                  refl := { uniform_blocks := [⟨2, 16, [99], [⟨[111], 4, 1, 0⟩]⟩] } }] }

/-- Sources whose only reflection is one vertex-stage uniform block `a` of
256 bytes (slot 0, four matrices `m` at offset 0). -/
def big_block : spirvcross_t :=
  { sources := [{ snippet_index := 0, source_code := [118],
                  refl := { uniform_blocks := [⟨0, 256, [97], [⟨[109], 5, 4, 0⟩]⟩] } },
                { snippet_index := 1, source_code := [102] }] }

/-- Sources whose only reflection is two vertex-stage uniform blocks: `a`
(slot 0, 64 bytes, member `m` at offset 0) and `b` (slot 1, 272 bytes, member
`n` at offset 256). -/
def two_blocks : spirvcross_t :=
  { sources := [{ snippet_index := 0, source_code := [118],
                  refl := { uniform_blocks :=
                    [⟨0, 64, [97], [⟨[109], 5, 1, 0⟩]⟩,
                     ⟨1, 272, [98], [⟨[110], 4, 1, 256⟩]⟩] } },
                { snippet_index := 1, source_code := [102] }] }

/-- The record `src` of the payload loop body: the source found for the
snippet, `none` where `assert(src_index >= 0)` fails. -/
def source_of (spirvcross : spirvcross_t) (snippet_index : Nat) : Option spirvcross_source_t :=
  let src_index := spirvcross.find_source_by_snippet_index snippet_index
  if src_index < 0 then none else spirvcross.sources[src_index.toNat]?

/-- The pointer `blob` of the payload loop body: the blob found for the
snippet, `none` for the null pointer. -/
def blob_of (bytecode : bytecode_t) (snippet_index : Nat) : Option bytecode_blob_t :=
  let blob_index := bytecode.find_blob_by_snippet_index snippet_index
  if blob_index ≠ -1 then bytecode.blobs[blob_index.toNat]? else none

/-- The snippet is a vertex or a fragment snippet: the payload loop does not
skip it. -/
def is_stage (snippet : snippet_t) : Bool :=
  snippet.type = .VS || snippet.type = .FS

/-- A material with two programs: the snippets of `one_program` and a second
pair `v2`, `f2`, paired by the programs `p` and `q`. -/
def two_programs : input_t :=
  { snippets := [⟨.VS⟩, ⟨.FS⟩, ⟨.VS⟩, ⟨.FS⟩]
    snippet_map := [([102, 50], 3), ([102, 115], 1), ([118, 50], 2), ([118, 115], 0)]
    programs := [([112], { name := [112], vs_name := [118, 115], fs_name := [102, 115] }),
                 ([113], { name := [113], vs_name := [118, 50], fs_name := [102, 50] })] }

/-- The sources generated for `two_programs`, one per snippet. -/
def two_programs_sources : spirvcross_t :=
  { sources := [{ snippet_index := 0, source_code := [118] },
                { snippet_index := 1, source_code := [102] },
                { snippet_index := 2, source_code := [119] },
                { snippet_index := 3, source_code := [103] }] }

/-- The payload pass run for each language of a list in turn, the way the
driver runs it for the requested languages; `none` as soon as one pass
stops on its assertion. -/
def payload_passes (inp : input_t) (spirvcross : Nat → spirvcross_t)
    (bytecode : Nat → bytecode_t) (u_vs u_fs : lx.m.source_type) :
    List Nat → lx.m.WriteContext → Option lx.m.WriteContext
  | [], ctx => some ctx
  | slang :: rest, ctx =>
    match lxtap_write_shader_sources_and_blobs inp (spirvcross slang) (bytecode slang) slang
        u_vs u_fs ctx with
    | none => none
    | some ctx => payload_passes inp spirvcross bytecode u_vs u_fs rest ctx

/-- Arguments that request GLSL330 (bit 0) and HLSL5 (bit 3). -/
def two_languages : args_t := { slang := 9 }

/-- Sources per language for `one_program`: the sample reflection for
GLSL330, and for every other language sources whose reflection is a single
fragment-stage uniform block. -/
def sources_per_language (i : Nat) : spirvcross_t :=
  if i = 0 then one_program_reflection else fs_block_only

/-- No language has bytecode. -/
def no_bytecode (_ : Nat) : bytecode_t := { blobs := [] }

/-- The check `output_t::check_errors` finding nothing. -/
def no_errors (_ : input_t) (_ : spirvcross_t) (_ : Nat) : Bool := false

/-- The context the driver's loop ends with for `one_program` and
`two_languages` (the fresh context should the loop not complete). -/
def two_languages_result : lx.m.WriteContext :=
  match gen_loop two_languages one_program sources_per_language no_bytecode no_errors 0 0
      slang_t.NUM 0 false mat_ctx with
  | .ok ctx => ctx
  | .error _ => mat_ctx

/-- A context that already has two programs: one tagged GLSL330 whose `vs`
holds the source `G` (byte 71) and one tagged HLSL5 whose `vs` holds the
source `H` (byte 72). -/
def two_tagged : lx.m.WriteContext :=
  { mat_ctx with
    programs := ⟨[⟨0, ⟨0, lx.m.bytes.ctor [71]⟩, ⟨0, lx.m.bytes.ctor []⟩⟩,
                  ⟨3, ⟨0, lx.m.bytes.ctor [72]⟩, ⟨0, lx.m.bytes.ctor []⟩⟩]⟩ }

end shdc

namespace lx.m

/-! ## Value ranges

The embedding keeps machine integers as natural numbers. `InRange` says of a
value that every integer member is a value of its C++ type and that every
`bytes` has the `size` its constructor gave it; `Bounded` says that its
strings and vectors have lengths a 16-bit count can hold. -/

/-- The `size` member is what the constructor `bytes(s)` stored. -/
abbrev bytes.InRange (b : bytes) : Prop := b.size = b.str.length % 65536

/-- The string is at most 65535 bytes long. -/
abbrev bytes.Bounded (b : bytes) : Prop := b.str.length ≤ 65535

abbrev attr_t.InRange (a : attr_t) : Prop :=
  a.slot < 65536 ∧ a.name.InRange ∧ a.type < 256

abbrev attr_t.Bounded (a : attr_t) : Prop := a.name.Bounded

abbrev uniform_t.InRange (u : uniform_t) : Prop :=
  u.name.InRange ∧ u.type < 256 ∧ u.array_count < 256 ∧ u.offset < 256

abbrev uniform_t.Bounded (u : uniform_t) : Prop := u.name.Bounded

abbrev uniform_block_t.InRange (b : uniform_block_t) : Prop :=
  b.slot < 256 ∧ b.name.InRange ∧ b.size < 256 ∧ ∀ u ∈ b.params.arr, u.InRange

abbrev uniform_block_t.Bounded (b : uniform_block_t) : Prop :=
  b.name.Bounded ∧ b.params.arr.length ≤ 65535 ∧ ∀ u ∈ b.params.arr, u.Bounded

abbrev texture_t.InRange (t : texture_t) : Prop :=
  t.slot < 256 ∧ t.name.InRange ∧ t.type < 256

abbrev texture_t.Bounded (t : texture_t) : Prop := t.name.Bounded

abbrev shader_t.InRange (s : shader_t) : Prop :=
  s.src_type < 256 ∧ s.source.InRange

abbrev shader_t.Bounded (s : shader_t) : Prop := s.source.Bounded

abbrev program_t.InRange (p : program_t) : Prop :=
  p.lang < 256 ∧ p.vs.InRange ∧ p.fs.InRange

abbrev program_t.Bounded (p : program_t) : Prop :=
  p.vs.Bounded ∧ p.fs.Bounded

/-- Every integer member of the context is a value of its C++ type, and every
`bytes` carries the size its constructor stored. Absent optionals are not
constrained: their value is never written. -/
abbrev WriteContext.InRange (c : WriteContext) : Prop :=
  (∀ a ∈ c.attrs.arr, a.InRange) ∧
  (c.vs_uniform_block.is_empty = false → c.vs_uniform_block.value.InRange) ∧
  (c.fs_uniform_block.is_empty = false → c.fs_uniform_block.value.InRange) ∧
  (c.fs_textures.is_empty = false → ∀ t ∈ c.fs_textures.value.arr, t.InRange) ∧
  (∀ p ∈ c.programs.arr, p.InRange)

/-- Every string written is at most 65535 bytes long and every array written
has at most 65535 elements. -/
abbrev WriteContext.Bounded (c : WriteContext) : Prop :=
  (c.attrs.arr.length ≤ 65535 ∧ ∀ a ∈ c.attrs.arr, a.Bounded) ∧
  (c.vs_uniform_block.is_empty = false → c.vs_uniform_block.value.Bounded) ∧
  (c.fs_uniform_block.is_empty = false → c.fs_uniform_block.value.Bounded) ∧
  (c.fs_textures.is_empty = false →
    c.fs_textures.value.arr.length ≤ 65535 ∧ ∀ t ∈ c.fs_textures.value.arr, t.Bounded) ∧
  (c.programs.arr.length ≤ 65535 ∧ ∀ p ∈ c.programs.arr, p.Bounded)

/-! ## Equivalence of contexts -/

/-- Two optionals agree: both absent, or both present with the same value. -/
abbrev optional.Equiv {T : Type} (a b : optional T) : Prop :=
  a.is_empty = b.is_empty ∧ (a.is_empty = false → a.value = b.value)

/-- Two contexts are equivalent: same attributes, same presence and contents
of both uniform blocks and of the texture list, same programs. The value held
by an absent optional does not count. -/
abbrev WriteContext.Equiv (c d : WriteContext) : Prop :=
  c.attrs = d.attrs ∧
  c.vs_uniform_block.Equiv d.vs_uniform_block ∧
  c.fs_uniform_block.Equiv d.fs_uniform_block ∧
  c.fs_textures.Equiv d.fs_textures ∧
  c.programs = d.programs

end lx.m

/-! ## A reader for the binary format

The sources have no reader. This one follows the binary layout of the
specification, section by section: header, attribute array, vs uniform block
optional, fs uniform block optional, texture array optional, program array.
Record size prefixes are read and not interpreted. -/

namespace SpecReader

open lx.m

/-- A reader takes the bytes left and returns a value and the bytes after
it, or fails. -/
abbrev Rd (α : Type) := List Nat → Option (α × List Nat)

/-- One byte. -/
def u8 : Rd Nat
  | b :: rest => some (b, rest)
  | [] => none

/-- A little-endian `uint16`. -/
def u16 : Rd Nat
  | lo :: hi :: rest => some (lo + 256 * hi, rest)
  | _ => none

/-- Reads `LPString := uint16 length, raw bytes (not null-terminated)`. -/
def lpstring : Rd bytes := fun inp =>
  match u16 inp with
  | none => none
  | some (n, rest) =>
    if n ≤ rest.length then some (bytes.ctor (rest.take n), rest.drop n) else none

/-- Reads `{ uint16 record_size, uint16 slot, LPString name, byte type }`. -/
def attr : Rd attr_t := fun inp => do
  let (_, rest) ← u16 inp
  let (slot, rest) ← u16 rest
  let (name, rest) ← lpstring rest
  let (type, rest) ← u8 rest
  pure ({ slot := slot, name := name, type := type }, rest)

/-- Reads `{ uint16 m_size, LPString name, byte type, byte array_count, byte offset }`. -/
def uniform : Rd uniform_t := fun inp => do
  let (_, rest) ← u16 inp
  let (name, rest) ← lpstring rest
  let (type, rest) ← u8 rest
  let (array_count, rest) ← u8 rest
  let (offset, rest) ← u8 rest
  pure ({ name := name, type := type, array_count := array_count, offset := offset }, rest)

/-- Reads `{ uint16 record_size, byte slot, LPString name, byte dim_type }`. -/
def texture : Rd texture_t := fun inp => do
  let (_, rest) ← u16 inp
  let (slot, rest) ← u8 rest
  let (name, rest) ← lpstring rest
  let (type, rest) ← u8 rest
  pure ({ slot := slot, name := name, type := type }, rest)

/-- Reads `uint16 size, byte payload_kind, LPString_or_bytes payload`. -/
def stage : Rd shader_t := fun inp => do
  let (_, rest) ← u16 inp
  let (src_type, rest) ← u8 rest
  let (source, rest) ← lpstring rest
  pure ({ src_type := src_type, source := source }, rest)

/-- Reads `{ uint16 record_size, byte lang_tag, VSStage, FSStage }`. -/
def program : Rd program_t := fun inp => do
  let (_, rest) ← u16 inp
  let (lang, rest) ← u8 rest
  let (vs, rest) ← stage rest
  let (fs, rest) ← stage rest
  pure ({ lang := lang, vs := vs, fs := fs }, rest)

/-- The reader `p` run `n` times in a row. -/
def times {α : Type} (p : Rd α) : Nat → Rd (List α)
  | 0 => fun inp => some ([], inp)
  | n + 1 => fun inp =>
    match p inp with
    | none => none
    | some (x, rest) =>
      match times p n rest with
      | none => none
      | some (xs, rest) => some (x :: xs, rest)

/-- Reads `uint16 count, repeated { record }`. -/
def arrayOf {α : Type} (p : Rd α) : Rd (array α) := fun inp => do
  let (n, rest) ← u16 inp
  let (xs, rest) ← times p n rest
  pure (⟨xs⟩, rest)

/-- Reads `byte present, [ record ]`: `0x00` is absent and yields `dflt`, `0x01` is
present, any other byte is rejected. -/
def optionalOf {α : Type} (dflt : α) (p : Rd α) : Rd (optional α) := fun inp => do
  let (present, rest) ← u8 inp
  if present = 0 then pure ({ value := dflt, is_empty := true }, rest)
  else if present = 1 then do
    let (v, rest) ← p rest
    pure ({ value := v, is_empty := false }, rest)
  else none

/-- Reads `[ uint16 record_size, byte slot, LPString name, byte size,
uint16 member_count, repeated { member } ]`. -/
def uniform_block : Rd uniform_block_t := fun inp => do
  let (_, rest) ← u16 inp
  let (slot, rest) ← u8 rest
  let (name, rest) ← lpstring rest
  let (size, rest) ← u8 rest
  let (params, rest) ← arrayOf uniform rest
  pure ({ slot := slot, name := name, size := size, params := params }, rest)

/-- Reads `byte magic0, byte magic1, uint16 version`; unknown magic or version is
rejected. -/
def header : Rd Unit := fun inp => do
  let (magic0, rest) ← u8 inp
  let (magic1, rest) ← u8 rest
  let (version, rest) ← u16 rest
  if magic0 = 0xCF ∧ magic1 = 0xBA ∧ version = 1 then pure ((), rest) else none

/-- The uniform block an absent optional is read as. -/
def no_block : uniform_block_t :=
  { slot := 0, name := bytes.ctor [], size := 0, params := ⟨[]⟩ }

/-- The whole file, section after section. -/
def context : Rd WriteContext := fun inp => do
  let (_, rest) ← header inp
  let (attrs, rest) ← arrayOf attr rest
  let (vs_uniform_block, rest) ← optionalOf no_block uniform_block rest
  let (fs_uniform_block, rest) ← optionalOf no_block uniform_block rest
  let (fs_textures, rest) ← optionalOf ⟨[]⟩ (arrayOf texture) rest
  let (programs, rest) ← arrayOf program rest
  pure ({ attrs := attrs, vs_uniform_block := vs_uniform_block,
          fs_uniform_block := fs_uniform_block, fs_textures := fs_textures,
          programs := programs }, rest)

/-- Read a file: the context it holds, provided no byte is left over. -/
def read (file : List Nat) : Option WriteContext :=
  match context file with
  | some (ctx, []) => some ctx
  | _ => none

/-- What an optional reads back as: itself when present, the default value
marked absent otherwise. -/
def as_read {T : Type} (dflt : T) (o : optional T) : optional T :=
  if o.is_empty then { value := dflt, is_empty := true } else o

/-- What a context reads back as: itself, but for the values that its absent
optionals hold, which are never written. -/
def context_as_read (c : WriteContext) : WriteContext :=
  { c with
    vs_uniform_block := as_read no_block c.vs_uniform_block
    fs_uniform_block := as_read no_block c.fs_uniform_block
    fs_textures := as_read ⟨[]⟩ c.fs_textures }

/-- A context for trying the reader on: one attribute whose name holds a zero
byte, a vs uniform block with one member, an absent fs uniform block that
still holds a value, one texture and one program. -/
def sample_context : WriteContext :=
  { attrs := ⟨[⟨3, bytes.ctor [97, 0, 98], attr_type.FLOAT4⟩]⟩
    vs_uniform_block :=
      { value := ⟨1, bytes.ctor [117], 64, ⟨[⟨bytes.ctor [109], attr_type.MAT4, 1, 0⟩]⟩⟩
        is_empty := false }
    fs_uniform_block := { value := ⟨9, bytes.ctor [1], 2, ⟨[]⟩⟩, is_empty := true }
    fs_textures :=
      { value := ⟨[⟨0, bytes.ctor [116], texture_type.IMAGE_2D⟩]⟩, is_empty := false }
    programs :=
      ⟨[⟨lang_type.HLSL5, ⟨source_type.ByteCode, bytes.ctor [1, 2]⟩,
          ⟨source_type.SourceCode, bytes.ctor [102]⟩⟩]⟩ }

end SpecReader

namespace lx.m

/-! ## Every write appends -/

theorem object_bytes_one (p : Nat) : object_bytes 1 p = [p % 256] := rfl

theorem object_bytes_two (p : Nat) : object_bytes 2 p = [p % 256, p / 256 % 256] := rfl

theorem bytes_write_eq (b : bytes) (oss : ostringstream) :
    b.write oss = oss ++ (b.size % 256 :: b.size / 256 % 256 :: b.str) := by
  simp [bytes.write, write_binary, object_bytes_two]

theorem attr_write_eq (a : attr_t) (oss : ostringstream) :
    a.write oss = oss ++ ([a.struct_size % 256, a.struct_size / 256 % 256,
      a.slot % 256, a.slot / 256 % 256] ++ a.name.write [] ++ [a.type % 256]) := by
  simp [attr_t.write, write_binary, object_bytes_two, object_bytes_one, bytes_write_eq]

theorem uniform_write_eq (u : uniform_t) (oss : ostringstream) :
    u.write oss = oss ++ ([u.struct_size % 256, u.struct_size / 256 % 256] ++
      u.name.write [] ++ [u.type % 256, u.array_count % 256, u.offset % 256]) := by
  simp [uniform_t.write, write_binary, object_bytes_two, object_bytes_one, bytes_write_eq]

theorem texture_write_eq (t : texture_t) (oss : ostringstream) :
    t.write oss = oss ++ ([t.struct_size % 256, t.struct_size / 256 % 256, t.slot % 256] ++
      t.name.write [] ++ [t.type % 256]) := by
  simp [texture_t.write, write_binary, object_bytes_two, object_bytes_one, bytes_write_eq]

theorem shader_write_eq (s : shader_t) (oss : ostringstream) :
    s.write oss = oss ++ ([s.struct_size % 256, s.struct_size / 256 % 256, s.src_type % 256] ++
      s.source.write []) := by
  simp [shader_t.write, write_binary, object_bytes_two, object_bytes_one, bytes_write_eq]

theorem program_write_eq (p : program_t) (oss : ostringstream) :
    p.write oss = oss ++ ([p.struct_size % 256, p.struct_size / 256 % 256, p.lang % 256] ++
      p.vs.write [] ++ p.fs.write []) := by
  simp [program_t.write, write_binary, object_bytes_two, object_bytes_one, shader_write_eq]

/-- A fold of append-only writes is the concatenation of the single writes. -/
theorem foldl_write_eq {T : Type} [Record T]
    (happ : ∀ (t : T) (oss : ostringstream), Record.write t oss = oss ++ Record.write t [])
    (l : List T) (oss : ostringstream) :
    l.foldl (fun oss t => Record.write t oss) oss =
      oss ++ (l.map (fun t => Record.write t [])).flatten := by
  induction l generalizing oss with
  | nil => simp
  | cons t l ih =>
    simp only [List.foldl_cons, List.map_cons, List.flatten_cons]
    rw [ih, happ t oss, List.append_assoc]

theorem array_write_eq {T : Type} [Record T]
    (happ : ∀ (t : T) (oss : ostringstream), Record.write t oss = oss ++ Record.write t [])
    (a : array T) (oss : ostringstream) :
    a.write oss = oss ++ ([a.arr.length % 65536 % 256, a.arr.length % 65536 / 256 % 256] ++
      (a.arr.map (fun t => Record.write t [])).flatten) := by
  simp [array.write, write_binary, object_bytes_two, foldl_write_eq happ]

theorem attr_write_append (a : attr_t) (oss : ostringstream) :
    Record.write a oss = oss ++ Record.write a [] := by
  show a.write oss = oss ++ a.write []
  rw [attr_write_eq a oss, attr_write_eq a []]; simp

theorem uniform_write_append (u : uniform_t) (oss : ostringstream) :
    Record.write u oss = oss ++ Record.write u [] := by
  show u.write oss = oss ++ u.write []
  rw [uniform_write_eq u oss, uniform_write_eq u []]; simp

theorem texture_write_append (t : texture_t) (oss : ostringstream) :
    Record.write t oss = oss ++ Record.write t [] := by
  show t.write oss = oss ++ t.write []
  rw [texture_write_eq t oss, texture_write_eq t []]; simp

theorem shader_write_append (s : shader_t) (oss : ostringstream) :
    Record.write s oss = oss ++ Record.write s [] := by
  show s.write oss = oss ++ s.write []
  rw [shader_write_eq s oss, shader_write_eq s []]; simp

theorem program_write_append (p : program_t) (oss : ostringstream) :
    Record.write p oss = oss ++ Record.write p [] := by
  show p.write oss = oss ++ p.write []
  rw [program_write_eq p oss, program_write_eq p []]; simp

theorem array_write_append {T : Type} [Record T]
    (happ : ∀ (t : T) (oss : ostringstream), Record.write t oss = oss ++ Record.write t [])
    (a : array T) (oss : ostringstream) :
    Record.write a oss = oss ++ Record.write a [] := by
  show a.write oss = oss ++ a.write []
  rw [array_write_eq happ a oss, array_write_eq happ a []]; simp

theorem uniform_block_write_eq (b : uniform_block_t) (oss : ostringstream) :
    b.write oss = oss ++ ([b.struct_size % 256, b.struct_size / 256 % 256, b.slot % 256] ++
      b.name.write [] ++ [b.size % 256] ++ b.params.write []) := by
  simp only [uniform_block_t.write, write_binary, object_bytes_two, object_bytes_one]
  rw [array_write_eq uniform_write_append, array_write_eq uniform_write_append b.params [],
    bytes_write_eq, bytes_write_eq b.name []]
  simp

theorem uniform_block_write_append (b : uniform_block_t) (oss : ostringstream) :
    Record.write b oss = oss ++ Record.write b [] := by
  show b.write oss = oss ++ b.write []
  rw [uniform_block_write_eq b oss, uniform_block_write_eq b []]; simp

theorem optional_write_eq {T : Type} [Record T]
    (happ : ∀ (t : T) (oss : ostringstream), Record.write t oss = oss ++ Record.write t [])
    (o : optional T) (oss : ostringstream) :
    o.write oss = oss ++ (if o.is_empty then [0] else 1 :: Record.write o.value []) := by
  cases h : o.is_empty <;> simp [optional.write, h]
  rw [happ]; simp

theorem gen_eq (ctx : WriteContext) :
    Writer.gen ctx = [0xCF, 0xBA, 0x01, 0x00] ++ ctx.attrs.write [] ++
      ctx.vs_uniform_block.write [] ++ ctx.fs_uniform_block.write [] ++
      ctx.fs_textures.write [] ++ ctx.programs.write [] := by
  simp only [Writer.gen, WriteContext.write, header_t.write, write_binary, object_bytes_one,
    object_bytes_two]
  rw [array_write_eq program_write_append,
    optional_write_eq (array_write_append texture_write_append),
    optional_write_eq uniform_block_write_append,
    optional_write_eq uniform_block_write_append,
    array_write_eq attr_write_append]
  rw [array_write_eq program_write_append _ [],
    optional_write_eq (array_write_append texture_write_append) _ [],
    optional_write_eq uniform_block_write_append _ [],
    optional_write_eq uniform_block_write_append _ [],
    array_write_eq attr_write_append _ []]
  simp

end lx.m

namespace lx.m

/-! ## Size prefixes of the leaf records -/

theorem bytes_write_length (b : bytes) : (b.write []).length = b.str.length + 2 := by
  simp [bytes_write_eq]

theorem le16_high (n : Nat) : n % 65536 / 256 % 256 = n % 65536 / 256 := by
  omega

/-- C2: for an attribute, a uniform member, a texture and a shader stage whose
bytes after the size prefix number at most 65535, `write` appends exactly
`struct_size() + 2` bytes to the stream, and the first two of them are
`struct_size()` in little-endian order. -/
theorem leaf_record_size_field :
    (∀ (a : attr_t) (oss : ostringstream), (a.write []).length ≤ 65535 + 2 →
      a.write oss = oss ++ a.write [] ∧
      (a.write []).length = a.struct_size + 2 ∧
      (a.write []).take 2 = [a.struct_size % 256, a.struct_size / 256]) ∧
    (∀ (u : uniform_t) (oss : ostringstream), (u.write []).length ≤ 65535 + 2 →
      u.write oss = oss ++ u.write [] ∧
      (u.write []).length = u.struct_size + 2 ∧
      (u.write []).take 2 = [u.struct_size % 256, u.struct_size / 256]) ∧
    (∀ (t : texture_t) (oss : ostringstream), (t.write []).length ≤ 65535 + 2 →
      t.write oss = oss ++ t.write [] ∧
      (t.write []).length = t.struct_size + 2 ∧
      (t.write []).take 2 = [t.struct_size % 256, t.struct_size / 256]) ∧
    (∀ (s : shader_t) (oss : ostringstream), (s.write []).length ≤ 65535 + 2 →
      s.write oss = oss ++ s.write [] ∧
      (s.write []).length = s.struct_size + 2 ∧
      (s.write []).take 2 = [s.struct_size % 256, s.struct_size / 256]) := by
  refine ⟨?_, ?_, ?_, ?_⟩
  · intro a oss h
    refine ⟨attr_write_append a oss, ?_, ?_⟩
    · rw [attr_write_eq] at h ⊢
      simp [bytes_write_length] at h ⊢
      simp only [attr_t.struct_size, bytes.struct_size]
      omega
    · rw [attr_write_eq]
      simp [attr_t.struct_size, le16_high]
  · intro u oss h
    refine ⟨uniform_write_append u oss, ?_, ?_⟩
    · rw [uniform_write_eq] at h ⊢
      simp [bytes_write_length] at h ⊢
      simp only [uniform_t.struct_size, bytes.struct_size]
      omega
    · rw [uniform_write_eq]
      simp [uniform_t.struct_size, le16_high]
  · intro t oss h
    refine ⟨texture_write_append t oss, ?_, ?_⟩
    · rw [texture_write_eq] at h ⊢
      simp [bytes_write_length] at h ⊢
      simp only [texture_t.struct_size, bytes.struct_size]
      omega
    · rw [texture_write_eq]
      simp [texture_t.struct_size, le16_high]
  · intro s oss h
    refine ⟨shader_write_append s oss, ?_, ?_⟩
    · rw [shader_write_eq] at h ⊢
      simp [bytes_write_length] at h ⊢
      simp only [shader_t.struct_size, bytes.struct_size]
      omega
    · rw [shader_write_eq]
      simp [shader_t.struct_size, le16_high]

/-- Witness of C2: an attribute named `pos`, a uniform member named `mvp`, a
texture named `tex` and a shader stage with a three-byte payload. -/
theorem leaf_record_size_field_witness :
    (attr_t.write ⟨0, bytes.ctor [112, 111, 115], attr_type.FLOAT3⟩ [9] =
        [9] ++ attr_t.write ⟨0, bytes.ctor [112, 111, 115], attr_type.FLOAT3⟩ [] ∧
      (attr_t.write ⟨0, bytes.ctor [112, 111, 115], attr_type.FLOAT3⟩ []).length =
        attr_t.struct_size ⟨0, bytes.ctor [112, 111, 115], attr_type.FLOAT3⟩ + 2 ∧
      (attr_t.write ⟨0, bytes.ctor [112, 111, 115], attr_type.FLOAT3⟩ []).take 2 =
        [attr_t.struct_size ⟨0, bytes.ctor [112, 111, 115], attr_type.FLOAT3⟩ % 256,
         attr_t.struct_size ⟨0, bytes.ctor [112, 111, 115], attr_type.FLOAT3⟩ / 256]) ∧
    (uniform_t.write ⟨bytes.ctor [109, 118, 112], attr_type.MAT4, 1, 0⟩ [] =
        [] ++ uniform_t.write ⟨bytes.ctor [109, 118, 112], attr_type.MAT4, 1, 0⟩ [] ∧
      (uniform_t.write ⟨bytes.ctor [109, 118, 112], attr_type.MAT4, 1, 0⟩ []).length =
        uniform_t.struct_size ⟨bytes.ctor [109, 118, 112], attr_type.MAT4, 1, 0⟩ + 2 ∧
      (uniform_t.write ⟨bytes.ctor [109, 118, 112], attr_type.MAT4, 1, 0⟩ []).take 2 =
        [uniform_t.struct_size ⟨bytes.ctor [109, 118, 112], attr_type.MAT4, 1, 0⟩ % 256,
         uniform_t.struct_size ⟨bytes.ctor [109, 118, 112], attr_type.MAT4, 1, 0⟩ / 256]) ∧
    (texture_t.write ⟨0, bytes.ctor [116, 101, 120], texture_type.IMAGE_2D⟩ [] =
        [] ++ texture_t.write ⟨0, bytes.ctor [116, 101, 120], texture_type.IMAGE_2D⟩ [] ∧
      (texture_t.write ⟨0, bytes.ctor [116, 101, 120], texture_type.IMAGE_2D⟩ []).length =
        texture_t.struct_size ⟨0, bytes.ctor [116, 101, 120], texture_type.IMAGE_2D⟩ + 2 ∧
      (texture_t.write ⟨0, bytes.ctor [116, 101, 120], texture_type.IMAGE_2D⟩ []).take 2 =
        [texture_t.struct_size ⟨0, bytes.ctor [116, 101, 120], texture_type.IMAGE_2D⟩ % 256,
         texture_t.struct_size ⟨0, bytes.ctor [116, 101, 120], texture_type.IMAGE_2D⟩ / 256]) ∧
    (shader_t.write ⟨source_type.ByteCode, bytes.ctor [1, 0, 2]⟩ [] =
        [] ++ shader_t.write ⟨source_type.ByteCode, bytes.ctor [1, 0, 2]⟩ [] ∧
      (shader_t.write ⟨source_type.ByteCode, bytes.ctor [1, 0, 2]⟩ []).length =
        shader_t.struct_size ⟨source_type.ByteCode, bytes.ctor [1, 0, 2]⟩ + 2 ∧
      (shader_t.write ⟨source_type.ByteCode, bytes.ctor [1, 0, 2]⟩ []).take 2 =
        [shader_t.struct_size ⟨source_type.ByteCode, bytes.ctor [1, 0, 2]⟩ % 256,
         shader_t.struct_size ⟨source_type.ByteCode, bytes.ctor [1, 0, 2]⟩ / 256]) :=
  ⟨leaf_record_size_field.1 _ _ (by decide),
   leaf_record_size_field.2.1 _ _ (by decide),
   leaf_record_size_field.2.2.1 _ _ (by decide),
   leaf_record_size_field.2.2.2 _ _ (by decide)⟩

end lx.m

namespace lx.m

/-! ## Size prefixes of the composite records -/

/-- C3, evaluated: the uniform block with slot 0, name `ub`, size 64 and one
member (name `m`, type MAT4, array count 1, offset 0) reports
`struct_size() = 14` and writes that as its prefix, but 16 bytes follow the
prefix: `write` emits `struct_size() + 4` bytes, the two bytes of the
member's own size prefix being left out of `array::struct_size`. The same
block with no member writes `struct_size() + 2` bytes. -/
theorem uniform_block_size_omits_member_sizes :
    uniform_block_t.struct_size
      ⟨0, bytes.ctor [117, 98], 64, ⟨[⟨bytes.ctor [109], attr_type.MAT4, 1, 0⟩]⟩⟩ = 14 ∧
    uniform_block_t.write
      ⟨0, bytes.ctor [117, 98], 64, ⟨[⟨bytes.ctor [109], attr_type.MAT4, 1, 0⟩]⟩⟩ [] =
      [14, 0, 0, 2, 0, 117, 98, 64, 1, 0, 6, 0, 1, 0, 109, 5, 1, 0] ∧
    (uniform_block_t.write
      ⟨0, bytes.ctor [117, 98], 64, ⟨[⟨bytes.ctor [109], attr_type.MAT4, 1, 0⟩]⟩⟩ []).length =
      uniform_block_t.struct_size
        ⟨0, bytes.ctor [117, 98], 64, ⟨[⟨bytes.ctor [109], attr_type.MAT4, 1, 0⟩]⟩⟩ + 4 ∧
    (uniform_block_t.write ⟨0, bytes.ctor [117, 98], 64, ⟨[]⟩⟩ []).length =
      uniform_block_t.struct_size ⟨0, bytes.ctor [117, 98], 64, ⟨[]⟩⟩ + 2 := by
  decide

/-- C4, evaluated: the program with language tag HLSL5, vertex stage
SourceCode `v` and fragment stage SourceCode `f` reports `struct_size() = 9`
and writes that as its prefix, but 13 bytes follow the prefix: `write` emits
`struct_size() + 6` bytes, the size prefixes of the two stage records being
left out of `program_t::struct_size`. -/
theorem program_size_omits_stage_sizes :
    program_t.struct_size
      ⟨lang_type.HLSL5, ⟨source_type.SourceCode, bytes.ctor [118]⟩,
        ⟨source_type.SourceCode, bytes.ctor [102]⟩⟩ = 9 ∧
    program_t.write
      ⟨lang_type.HLSL5, ⟨source_type.SourceCode, bytes.ctor [118]⟩,
        ⟨source_type.SourceCode, bytes.ctor [102]⟩⟩ [] =
      [9, 0, 3, 4, 0, 0, 1, 0, 118, 4, 0, 0, 1, 0, 102] ∧
    (program_t.write
      ⟨lang_type.HLSL5, ⟨source_type.SourceCode, bytes.ctor [118]⟩,
        ⟨source_type.SourceCode, bytes.ctor [102]⟩⟩ []).length =
      program_t.struct_size
        ⟨lang_type.HLSL5, ⟨source_type.SourceCode, bytes.ctor [118]⟩,
          ⟨source_type.SourceCode, bytes.ctor [102]⟩⟩ + 6 := by
  decide

/-! ## The top-level layout -/

/-- C5: the output of `Writer::gen` is the four header bytes CF BA 01 00,
then the attribute array, the vs uniform block optional, the fs uniform
block optional, the texture array optional and the program array, each as
its own `write` emits it, and nothing else; a context with no attributes, no
programs and its three optionals absent, whatever values they hold, is the 11
bytes CF BA 01 00 00 00 00 00 00 00 00. -/
theorem gen_layout (ctx : WriteContext) (v f : uniform_block_t) (t : array texture_t) :
    Writer.gen ctx = [0xCF, 0xBA, 0x01, 0x00] ++ ctx.attrs.write [] ++
      ctx.vs_uniform_block.write [] ++ ctx.fs_uniform_block.write [] ++
      ctx.fs_textures.write [] ++ ctx.programs.write [] ∧
    Writer.gen ⟨⟨[]⟩, ⟨v, true⟩, ⟨f, true⟩, ⟨t, true⟩, ⟨[]⟩⟩ =
      [0xCF, 0xBA, 0x01, 0x00, 0x00, 0x00, 0x00, 0x00, 0x00, 0x00, 0x00] := by
  refine ⟨gen_eq ctx, ?_⟩
  rw [gen_eq]
  simp [array.write, optional.write, write_binary, object_bytes_two]

/-! ## Length-prefixed strings -/

theorem bytes_ctor_struct_size (s : List Nat) :
    (bytes.ctor s).struct_size = (s.length + 2) % 65536 := rfl

/-- C6, refuted as stated: for the string of 65534 zero bytes, which is at
most 65535 bytes long, `bytes(s).struct_size()` is 0 and not `2 + len(s)`. -/
theorem bytes_struct_size_wraps :
    (List.replicate 65534 0).length ≤ 65535 ∧
    (bytes.ctor (List.replicate 65534 0)).struct_size = 0 ∧
    (bytes.ctor (List.replicate 65534 0)).struct_size ≠ 2 + (List.replicate 65534 0).length := by
  have hl : (List.replicate 65534 0).length = 65534 := List.length_replicate _ _
  rw [bytes_ctor_struct_size, hl]
  exact ⟨by omega, by omega, by omega⟩

/-- C6, amended: for a string `s` of at most 65535 bytes, `bytes(s).write`
appends exactly `2 + len(s)` bytes, the little-endian 16-bit `len(s)` and
then the bytes of `s` unchanged, with no terminator; `bytes(s).struct_size()`
is `(2 + len(s)) mod 65536`, which is `2 + len(s)` when `len(s) ≤ 65533`. -/
theorem bytes_write_layout (s : List Nat) (oss : ostringstream) (h : s.length ≤ 65535) :
    (bytes.ctor s).write oss = oss ++ [s.length % 256, s.length / 256] ++ s ∧
    ((bytes.ctor s).write oss).length = oss.length + (2 + s.length) ∧
    (bytes.ctor s).struct_size = (2 + s.length) % 65536 ∧
    (s.length ≤ 65533 → (bytes.ctor s).struct_size = 2 + s.length) := by
  have h1 : s.length % 65536 = s.length := Nat.mod_eq_of_lt (by omega)
  have h2 : s.length / 256 % 256 = s.length / 256 := Nat.mod_eq_of_lt (by omega)
  refine ⟨?_, ?_, ?_, ?_⟩
  · simp [bytes_write_eq, bytes.ctor, h1, h2]
  · simp [bytes_write_eq, bytes.ctor]; omega
  · simp [bytes.struct_size, bytes.ctor, Nat.add_comm]
  · intro h3
    simp only [bytes.struct_size, bytes.ctor]
    omega

/-- Witness of C6 amended: the three-byte string 97, 0, 98, which holds a zero
byte. -/
theorem bytes_write_layout_witness :
    (bytes.ctor [97, 0, 98]).write [7] = [7] ++ [[97, 0, 98].length % 256, [97, 0, 98].length / 256] ++ [97, 0, 98] ∧
    ((bytes.ctor [97, 0, 98]).write [7]).length = [7].length + (2 + [97, 0, 98].length) ∧
    (bytes.ctor [97, 0, 98]).struct_size = (2 + [97, 0, 98].length) % 65536 ∧
    ([97, 0, 98].length ≤ 65533 → (bytes.ctor [97, 0, 98]).struct_size = 2 + [97, 0, 98].length) :=
  bytes_write_layout [97, 0, 98] [7] (by decide)

/-! ## Container wrappers -/

/-- C7: for an array of at most 65535 records whose `write` only appends,
`array::write` appends the little-endian 16-bit element count and then what
every element's `write` emits, size prefix included, in vector order; the
empty array is the two bytes 00 00 and nothing more. -/
theorem array_write_layout {T : Type} [Record T]
    (happ : ∀ (t : T) (oss : ostringstream), Record.write t oss = oss ++ Record.write t [])
    (a : array T) (oss : ostringstream) (h : a.arr.length ≤ 65535) :
    a.write oss = oss ++ [a.arr.length % 256, a.arr.length / 256] ++
      (a.arr.map (fun t => Record.write t [])).flatten ∧
    (array.mk ([] : List T)).write oss = oss ++ [0x00, 0x00] := by
  have h1 : a.arr.length % 65536 = a.arr.length := Nat.mod_eq_of_lt (by omega)
  have h2 : a.arr.length / 256 % 256 = a.arr.length / 256 := Nat.mod_eq_of_lt (by omega)
  refine ⟨?_, ?_⟩
  · rw [array_write_eq happ, h1, h2]; simp
  · simp [array.write, write_binary, object_bytes_two]

/-- Witness of C7: an array of two attributes. -/
theorem array_write_layout_witness :
    (array.mk [attr_t.mk 0 (bytes.ctor [112]) 3, attr_t.mk 1 (bytes.ctor [110]) 3]).write [] =
      [] ++ [[attr_t.mk 0 (bytes.ctor [112]) 3, attr_t.mk 1 (bytes.ctor [110]) 3].length % 256,
             [attr_t.mk 0 (bytes.ctor [112]) 3, attr_t.mk 1 (bytes.ctor [110]) 3].length / 256] ++
        ([attr_t.mk 0 (bytes.ctor [112]) 3, attr_t.mk 1 (bytes.ctor [110]) 3].map
          (fun t => Record.write t [])).flatten ∧
    (array.mk ([] : List attr_t)).write [] = [] ++ [0x00, 0x00] :=
  array_write_layout attr_write_append
    (array.mk [attr_t.mk 0 (bytes.ctor [112]) 3, attr_t.mk 1 (bytes.ctor [110]) 3]) []
    (by decide)

/-- C8: an absent optional writes the single byte 0x00 and nothing more,
whatever value it wraps; an optional made present by `fill()`, like any
optional with `is_empty` false, writes the byte 0x01 and then exactly what
the wrapped record's `write` emits, for a record whose `write` only appends. -/
theorem optional_write_layout {T : Type} [Record T]
    (happ : ∀ (t : T) (oss : ostringstream), Record.write t oss = oss ++ Record.write t [])
    (o : optional T) (oss : ostringstream) :
    (optional.mk o.value true).write oss = oss ++ [0x00] ∧
    o.fill.write oss = oss ++ [0x01] ++ Record.write o.value [] ∧
    (optional.mk o.value false).write oss = oss ++ [0x01] ++ Record.write o.value [] := by
  refine ⟨?_, ?_, ?_⟩
  · simp [optional.write]
  · rw [optional_write_eq happ]; simp [optional.fill]
  · rw [optional_write_eq happ]; simp

/-- Witness of C8: an optional texture array that holds one texture. -/
theorem optional_write_layout_witness :
    (optional.mk (optional.mk (array.mk [texture_t.mk 0 (bytes.ctor [116]) 1]) true).value true).write [] =
      [] ++ [0x00] ∧
    (optional.mk (array.mk [texture_t.mk 0 (bytes.ctor [116]) 1]) true).fill.write [] =
      [] ++ [0x01] ++
        Record.write (optional.mk (array.mk [texture_t.mk 0 (bytes.ctor [116]) 1]) true).value [] ∧
    (optional.mk (optional.mk (array.mk [texture_t.mk 0 (bytes.ctor [116]) 1]) true).value false).write [] =
      [] ++ [0x01] ++
        Record.write (optional.mk (array.mk [texture_t.mk 0 (bytes.ctor [116]) 1]) true).value [] :=
  optional_write_layout (array_write_append texture_write_append)
    (optional.mk (array.mk [texture_t.mk 0 (bytes.ctor [116]) 1]) true) []

end lx.m

namespace shdc

/-! ## The payload pass -/

/-- C9, evaluated: the material `one_program`, a vertex snippet with source
`v` and a fragment snippet with source `f`, no bytecode, language GLSL330, on
the fresh context. In either snippet order the pass succeeds and leaves one
program whose fragment stage still has the empty payload it was created with;
with the vertex snippet first its vertex stage ends up holding the fragment
source. -/
theorem payload_pass_never_fills_fs (u_vs u_fs : lx.m.source_type) :
    lxtap_write_shader_sources_and_blobs one_program one_program_sources ⟨[]⟩
        lx.m.lang_type.GLSL330 u_vs u_fs mat_ctx =
      some { mat_ctx with programs := ⟨[{ lang := lx.m.lang_type.GLSL330,
                                          vs := ⟨lx.m.source_type.SourceCode, lx.m.bytes.ctor [102]⟩,
                                          fs := ⟨u_fs, lx.m.bytes.ctor []⟩ }]⟩ } ∧
    lxtap_write_shader_sources_and_blobs one_program_fs_first one_program_fs_first_sources ⟨[]⟩
        lx.m.lang_type.GLSL330 u_vs u_fs mat_ctx =
      some { mat_ctx with programs := ⟨[{ lang := lx.m.lang_type.GLSL330,
                                          vs := ⟨lx.m.source_type.SourceCode, lx.m.bytes.ctor [118]⟩,
                                          fs := ⟨u_fs, lx.m.bytes.ctor []⟩ }]⟩ } :=
  ⟨rfl, rfl⟩

/-- C10, evaluated: the material `one_program`, language HLSL5, on the fresh
context. With the bytecode blob AB CD compiled for the fragment snippet, the
fragment stage keeps its empty payload and the vertex stage becomes ByteCode
with the fragment blob; with the blob compiled for the vertex snippet
instead, the blob is overwritten and the vertex stage ends as SourceCode with
the fragment source. -/
theorem payload_pass_blob_lands_in_vs (u_vs u_fs : lx.m.source_type) :
    lxtap_write_shader_sources_and_blobs one_program one_program_sources
        ⟨[⟨1, [0xAB, 0xCD]⟩]⟩ lx.m.lang_type.HLSL5 u_vs u_fs mat_ctx =
      some { mat_ctx with programs := ⟨[{ lang := lx.m.lang_type.HLSL5,
                                          vs := ⟨lx.m.source_type.ByteCode,
                                                 lx.m.bytes.ctor [0xAB, 0xCD]⟩,
                                          fs := ⟨u_fs, lx.m.bytes.ctor []⟩ }]⟩ } ∧
    lxtap_write_shader_sources_and_blobs one_program one_program_sources
        ⟨[⟨0, [0xAB, 0xCD]⟩]⟩ lx.m.lang_type.HLSL5 u_vs u_fs mat_ctx =
      some { mat_ctx with programs := ⟨[{ lang := lx.m.lang_type.HLSL5,
                                          vs := ⟨lx.m.source_type.SourceCode, lx.m.bytes.ctor [102]⟩,
                                          fs := ⟨u_fs, lx.m.bytes.ctor []⟩ }]⟩ } :=
  ⟨rfl, rfl⟩

end shdc

namespace SpecReader

open lx.m

/-! ## Reading back what was written -/

theorem u16_cons (lo hi : Nat) (rest : List Nat) :
    u16 (lo :: hi :: rest) = some (lo + 256 * hi, rest) := rfl

theorem u8_cons (b : Nat) (rest : List Nat) : u8 (b :: rest) = some (b, rest) := rfl

theorem le16_value (n : Nat) (h : n < 65536) : n % 256 + 256 * (n / 256 % 256) = n := by
  omega

theorem lpstring_write (b : bytes) (hr : b.InRange) (hb : b.Bounded) (rest : List Nat) :
    lpstring (b.write [] ++ rest) = some (b, rest) := by
  have hsz : b.size = b.str.length := by
    have h1 : b.size = b.str.length % 65536 := hr
    have h2 : b.str.length ≤ 65535 := hb
    omega
  have hb' : b.str.length ≤ 65535 := hb
  rw [bytes_write_eq]
  simp only [List.nil_append, List.cons_append, lpstring, u16_cons]
  rw [le16_value b.size (by omega), hsz]
  simp only [List.length_append, Nat.le_add_right, if_true, List.take_left', List.drop_left']
  cases b with
  | mk size str =>
    simp only [bytes.ctor] at *
    rw [hsz, Nat.mod_eq_of_lt (by omega)]

theorem attr_write (a : attr_t) (hr : a.InRange) (hb : a.Bounded) (rest : List Nat) :
    attr (Record.write a [] ++ rest) = some (a, rest) := by
  obtain ⟨h1, h2, h3⟩ := hr
  show attr (a.write [] ++ rest) = some (a, rest)
  rw [attr_write_eq]
  simp only [List.nil_append, List.cons_append, List.append_assoc, attr, u16_cons, bind,
    Option.bind, le16_value a.slot h1, lpstring_write a.name h2 hb, u8_cons, pure,
    Nat.mod_eq_of_lt h3]

theorem uniform_write (u : uniform_t) (hr : u.InRange) (hb : u.Bounded) (rest : List Nat) :
    uniform (Record.write u [] ++ rest) = some (u, rest) := by
  obtain ⟨h1, h2, h3, h4⟩ := hr
  show uniform (u.write [] ++ rest) = some (u, rest)
  rw [uniform_write_eq]
  simp only [List.nil_append, List.cons_append, List.append_assoc, uniform, u16_cons, bind,
    Option.bind, lpstring_write u.name h1 hb, u8_cons, pure,
    Nat.mod_eq_of_lt h2, Nat.mod_eq_of_lt h3, Nat.mod_eq_of_lt h4]

theorem texture_write (t : texture_t) (hr : t.InRange) (hb : t.Bounded) (rest : List Nat) :
    texture (Record.write t [] ++ rest) = some (t, rest) := by
  obtain ⟨h1, h2, h3⟩ := hr
  show texture (t.write [] ++ rest) = some (t, rest)
  rw [texture_write_eq]
  simp only [List.nil_append, List.cons_append, List.append_assoc, texture, u16_cons, bind,
    Option.bind, lpstring_write t.name h2 hb, u8_cons, pure,
    Nat.mod_eq_of_lt h1, Nat.mod_eq_of_lt h3]

theorem stage_write (s : shader_t) (hr : s.InRange) (hb : s.Bounded) (rest : List Nat) :
    stage (s.write [] ++ rest) = some (s, rest) := by
  obtain ⟨h1, h2⟩ := hr
  rw [shader_write_eq]
  simp only [List.nil_append, List.cons_append, List.append_assoc, stage, u16_cons, bind,
    Option.bind, lpstring_write s.source h2 hb, u8_cons, pure, Nat.mod_eq_of_lt h1]

theorem program_write (p : program_t) (hr : p.InRange) (hb : p.Bounded) (rest : List Nat) :
    program (Record.write p [] ++ rest) = some (p, rest) := by
  obtain ⟨h1, h2, h3⟩ := hr
  obtain ⟨h4, h5⟩ := hb
  show program (p.write [] ++ rest) = some (p, rest)
  rw [program_write_eq]
  simp only [List.nil_append, List.cons_append, List.append_assoc, program, u16_cons, bind,
    Option.bind, stage_write p.vs h2 h4, stage_write p.fs h3 h5, u8_cons, pure,
    Nat.mod_eq_of_lt h1]

/-- Reading as many records as were written gives the records back. -/
theorem times_write {T : Type} [Record T] (p : Rd T) (l : List T)
    (h : ∀ t ∈ l, ∀ rest, p (Record.write t [] ++ rest) = some (t, rest)) (rest : List Nat) :
    times p l.length ((l.map (fun t => Record.write t [])).flatten ++ rest) = some (l, rest) := by
  induction l with
  | nil => simp [times]
  | cons t l ih =>
    have ht := h t (List.mem_cons_self t l)
    have hl := ih (fun x hx => h x (List.mem_cons_of_mem t hx))
    simp only [List.length_cons, List.map_cons, List.flatten_cons, List.append_assoc, times, ht,
      hl]

theorem arrayOf_write {T : Type} [Record T] (p : Rd T)
    (happ : ∀ (t : T) (oss : ostringstream), Record.write t oss = oss ++ Record.write t [])
    (a : array T) (hn : a.arr.length ≤ 65535)
    (h : ∀ t ∈ a.arr, ∀ rest, p (Record.write t [] ++ rest) = some (t, rest))
    (rest : List Nat) :
    arrayOf p (Record.write a [] ++ rest) = some (a, rest) := by
  show arrayOf p (a.write [] ++ rest) = some (a, rest)
  rw [array_write_eq happ]
  simp only [List.nil_append, List.cons_append, List.append_assoc, arrayOf, u16_cons, bind,
    Option.bind, Nat.mod_eq_of_lt (show a.arr.length < 65536 by omega),
    le16_value a.arr.length (by omega), times_write p a.arr h, pure]

theorem uniform_block_write (b : uniform_block_t) (hr : b.InRange) (hb : b.Bounded)
    (rest : List Nat) :
    uniform_block (Record.write b [] ++ rest) = some (b, rest) := by
  obtain ⟨h1, h2, h3, h4⟩ := hr
  obtain ⟨h5, h6, h7⟩ := hb
  show uniform_block (b.write [] ++ rest) = some (b, rest)
  rw [uniform_block_write_eq]
  have hp := arrayOf_write uniform uniform_write_append b.params h6
    (fun u hu rest => uniform_write u (h4 u hu) (h7 u hu) rest) rest
  have hp' : arrayOf uniform (b.params.write [] ++ rest) = some (b.params, rest) := hp
  simp only [List.nil_append, List.cons_append, List.append_assoc, uniform_block, u16_cons, bind,
    Option.bind, lpstring_write b.name h2 h5, u8_cons, pure, List.singleton_append,
    Nat.mod_eq_of_lt h1, Nat.mod_eq_of_lt h3, hp']

theorem optionalOf_write {T : Type} [Record T] (dflt : T) (p : Rd T)
    (happ : ∀ (t : T) (oss : ostringstream), Record.write t oss = oss ++ Record.write t [])
    (o : optional T)
    (h : o.is_empty = false → ∀ rest, p (Record.write o.value [] ++ rest) = some (o.value, rest))
    (rest : List Nat) :
    optionalOf dflt p (o.write [] ++ rest) = some (as_read dflt o, rest) := by
  rw [optional_write_eq happ]
  cases o with
  | mk value is_empty =>
    cases is_empty with
    | true => simp [optionalOf, u8_cons, as_read]
    | false =>
      have hv := h rfl rest
      simp only [] at hv
      simp [optionalOf, u8_cons, as_read, hv]

theorem context_gen (c : WriteContext) (hr : c.InRange) (hb : c.Bounded) :
    context (Writer.gen c) = some (context_as_read c, []) := by
  obtain ⟨r1, r2, r3, r4, r5⟩ := hr
  obtain ⟨⟨b1, b1'⟩, b2, b3, b4, ⟨b5, b5'⟩⟩ := hb
  have e1 := arrayOf_write attr attr_write_append c.attrs b1
    (fun a ha rest => attr_write a (r1 a ha) (b1' a ha) rest)
  have e2 := optionalOf_write no_block uniform_block uniform_block_write_append
    c.vs_uniform_block
    (fun hp rest => uniform_block_write c.vs_uniform_block.value (r2 hp) (b2 hp) rest)
  have e3 := optionalOf_write no_block uniform_block uniform_block_write_append
    c.fs_uniform_block
    (fun hp rest => uniform_block_write c.fs_uniform_block.value (r3 hp) (b3 hp) rest)
  have e4 := optionalOf_write ⟨[]⟩ (arrayOf texture) (array_write_append texture_write_append)
    c.fs_textures
    (fun hp rest => arrayOf_write texture texture_write_append c.fs_textures.value (b4 hp).1
      (fun t ht rest => texture_write t (r4 hp t ht) ((b4 hp).2 t ht) rest) rest)
  have e5 := arrayOf_write program program_write_append c.programs b5
    (fun p hp rest => program_write p (r5 p hp) (b5' p hp) rest) []
  have e1' : ∀ rest, arrayOf attr (c.attrs.write [] ++ rest) = some (c.attrs, rest) := e1
  have e5' : arrayOf program (c.programs.write []) = some (c.programs, []) := by
    simpa using e5
  rw [gen_eq]
  simp only [List.cons_append, List.nil_append, List.append_assoc, context, header, u8_cons,
    u16_cons, bind, Option.bind, pure, and_self, if_true, e1', e2, e3, e4, e5', context_as_read]

theorem read_gen (c : WriteContext) (hr : c.InRange) (hb : c.Bounded) :
    read (Writer.gen c) = some (context_as_read c) := by
  simp [read, context_gen c hr hb]

theorem equiv_as_read {T : Type} (dflt : T) (o : optional T) :
    o.Equiv (as_read dflt o) := by
  cases o with
  | mk value is_empty => cases is_empty <;> simp [as_read, optional.Equiv]

theorem equiv_of_as_read_eq {T : Type} (dflt : T) (a b : optional T)
    (h : as_read dflt a = as_read dflt b) : a.Equiv b := by
  cases a with
  | mk va ea =>
    cases b with
    | mk vb eb => cases ea <;> cases eb <;> simp_all [as_read, optional.Equiv]

theorem equiv_context_as_read (c : WriteContext) : c.Equiv (context_as_read c) :=
  ⟨rfl, equiv_as_read _ _, equiv_as_read _ _, equiv_as_read _ _, rfl⟩

theorem equiv_of_context_as_read_eq (c d : WriteContext)
    (h : context_as_read c = context_as_read d) : c.Equiv d := by
  simp only [context_as_read, WriteContext.mk.injEq] at h
  obtain ⟨h1, h2, h3, h4, h5⟩ := h
  exact ⟨h1, equiv_of_as_read_eq _ _ _ h2, equiv_of_as_read_eq _ _ _ h3,
    equiv_of_as_read_eq _ _ _ h4, h5⟩

/-- C1: the reader `SpecReader.read` follows the section layout (header,
attribute array, vs block optional, fs block optional, texture optional,
program array), and for every context whose strings are at most 65535 bytes
long and whose arrays have at most 65535 elements it reads the output of
`Writer::gen` back as an equivalent context: the same attributes, the same
presence and contents of both uniform blocks and of the textures, the same
programs. Hence two such contexts with the same output are equivalent: the
writer is injective up to the values held by absent optionals. -/
theorem gen_roundtrip (c : WriteContext) (hr : c.InRange) (hb : c.Bounded) :
    read (Writer.gen c) = some (context_as_read c) ∧
    c.Equiv (context_as_read c) ∧
    ∀ d : WriteContext, d.InRange → d.Bounded → Writer.gen d = Writer.gen c → c.Equiv d := by
  refine ⟨read_gen c hr hb, equiv_context_as_read c, ?_⟩
  intro d hdr hdb hgen
  have h1 := read_gen c hr hb
  have h2 := read_gen d hdr hdb
  rw [hgen, h1] at h2
  exact equiv_of_context_as_read_eq c d (Option.some.inj h2)

/-- Witness of C1: the sample context is in range and bounded, and reads back
as itself with its absent fs uniform block reset to the default value. -/
theorem gen_roundtrip_witness :
    sample_context.InRange ∧ sample_context.Bounded ∧
    read (Writer.gen sample_context) = some (context_as_read sample_context) ∧
    sample_context.Equiv (context_as_read sample_context) :=
  ⟨by decide, by decide, (gen_roundtrip sample_context (by decide) (by decide)).1,
    (gen_roundtrip sample_context (by decide) (by decide)).2.1⟩

end SpecReader

namespace shdc

/-! ## The reflection pass, loop by loop -/

theorem push_attrs_eq (inputs : List attr_t) (arr : List lx.m.attr_t) :
    push_attrs inputs arr =
      arr ++ (inputs.filter (fun a => decide (a.slot ≥ 0))).map to_mattr := by
  unfold push_attrs
  induction inputs generalizing arr with
  | nil => simp
  | cons a l ih =>
    simp only [List.foldl_cons]
    rw [ih]
    by_cases h : a.slot ≥ 0
    · simp [h, List.filter_cons, to_mattr]
    · simp [h, List.filter_cons]

theorem push_uniforms_eq (l : List uniform_t) (m : lx.m.uniform_block_t) :
    l.foldl (fun (m : lx.m.uniform_block_t) uniform =>
        let mu : lx.m.uniform_t :=
          { name := lx.m.bytes.ctor uniform.name, type := uniform.type % 256,
            offset := (uniform.offset % 256).toNat,
            array_count := (uniform.array_count % 256).toNat }
        { m with params := ⟨m.params.arr ++ [mu]⟩ }) m =
      { m with params := ⟨m.params.arr ++ l.map to_mu⟩ } := by
  induction l generalizing m with
  | nil => simp
  | cons u l ih =>
    simp only [List.foldl_cons]
    rw [ih]
    simp [to_mu]

theorem merge_block_eq (ub : uniform_block_t) (m : lx.m.uniform_block_t) :
    merge_block ub m =
      { slot := (ub.slot % 256).toNat, name := lx.m.bytes.ctor ub.name,
        size := (ub.size % 256).toNat,
        params := ⟨m.params.arr ++ ub.uniforms.map to_mu⟩ } := by
  unfold merge_block
  simp only []
  rw [push_uniforms_eq]

/-- The optional a uniform block loop ends with, from the optional `o` it
starts with: each block is merged into the value and marks it present. -/
theorem vs_uniforms_eq (blocks : List uniform_block_t) (ctx : lx.m.WriteContext) :
    vs_uniforms blocks ctx =
      { ctx with vs_uniform_block :=
          blocks.foldl (fun (o : lx.m.optional lx.m.uniform_block_t) ub =>
            { value := merge_block ub o.value, is_empty := false }) ctx.vs_uniform_block } := by
  unfold vs_uniforms
  induction blocks generalizing ctx with
  | nil => simp
  | cons b bs ih =>
    simp only [List.foldl_cons]
    rw [ih]
    simp [lx.m.optional.fill]

theorem fs_uniforms_eq (blocks : List uniform_block_t) (ctx : lx.m.WriteContext) :
    fs_uniforms blocks ctx =
      { ctx with
        vs_uniform_block :=
          if blocks.isEmpty then ctx.vs_uniform_block
          else { value := ctx.vs_uniform_block.value, is_empty := false }
        fs_uniform_block :=
          { value := blocks.foldl (fun (m : lx.m.uniform_block_t) ub => merge_block ub m)
              ctx.fs_uniform_block.value
            is_empty := ctx.fs_uniform_block.is_empty } } := by
  unfold fs_uniforms
  induction blocks generalizing ctx with
  | nil => simp
  | cons b bs ih =>
    simp only [List.foldl_cons]
    rw [ih]
    cases bs <;> simp [lx.m.optional.fill]

theorem push_images_eq (images : List image_t) (ctx : lx.m.WriteContext) :
    push_images images ctx =
      { ctx with
        fs_textures :=
          if images.isEmpty then ctx.fs_textures
          else { value := ⟨ctx.fs_textures.value.arr ++ images.map to_mt⟩, is_empty := false } } := by
  unfold push_images
  induction images generalizing ctx with
  | nil => simp
  | cons i is ih =>
    simp only [List.foldl_cons]
    rw [ih]
    cases is <;> simp [lx.m.optional.fill, to_mt]

/-- The fields of the block that a uniform block loop over `init ++ [bn]`
leaves: slot, name and size converted from `bn`, and the members of all the
blocks appended to those already there. -/
theorem merge_fold_eq (blocks : List uniform_block_t) (m : lx.m.uniform_block_t) :
    (blocks.foldl (fun (m : lx.m.uniform_block_t) ub => merge_block ub m) m).params.arr =
      m.params.arr ++ (blocks.flatMap (fun ub => ub.uniforms)).map to_mu := by
  induction blocks generalizing m with
  | nil => simp
  | cons b bs ih =>
    simp only [List.foldl_cons]
    rw [ih, merge_block_eq]
    simp [List.flatMap_cons]

theorem optional_fold_value (blocks : List uniform_block_t)
    (o : lx.m.optional lx.m.uniform_block_t) :
    (blocks.foldl (fun (o : lx.m.optional lx.m.uniform_block_t) ub =>
        { value := merge_block ub o.value, is_empty := false }) o).value =
      blocks.foldl (fun (m : lx.m.uniform_block_t) ub => merge_block ub m) o.value := by
  induction blocks generalizing o with
  | nil => simp
  | cons b bs ih =>
    simp only [List.foldl_cons]
    rw [ih]

theorem optional_fold_present (init : List uniform_block_t) (bn : uniform_block_t)
    (o : lx.m.optional lx.m.uniform_block_t) :
    ((init ++ [bn]).foldl (fun (o : lx.m.optional lx.m.uniform_block_t) ub =>
        { value := merge_block ub o.value, is_empty := false }) o).is_empty = false := by
  simp [List.foldl_append]

theorem merge_fold_last (init : List uniform_block_t) (bn : uniform_block_t)
    (m : lx.m.uniform_block_t) :
    ((init ++ [bn]).foldl (fun (m : lx.m.uniform_block_t) ub => merge_block ub m) m) =
      { slot := (bn.slot % 256).toNat, name := lx.m.bytes.ctor bn.name,
        size := (bn.size % 256).toNat,
        params := ⟨m.params.arr ++ ((init ++ [bn]).flatMap (fun ub => ub.uniforms)).map to_mu⟩ } := by
  have h := merge_fold_eq (init ++ [bn]) m
  rw [List.foldl_append] at h ⊢
  simp only [List.foldl_cons, List.foldl_nil] at h ⊢
  rw [merge_block_eq] at h ⊢
  simp only [] at h
  rw [h]

theorem write_header_body_eq (inp : input_t) (spirvcross : spirvcross_t) (prog : program_t)
    (ctx : lx.m.WriteContext) :
    write_header_body inp spirvcross prog ctx =
      (program_sources inp spirvcross prog).map (fun s =>
        push_images s.2.refl.images (fs_uniforms s.2.refl.uniform_blocks
          (vs_uniforms s.1.refl.uniform_blocks
            { ctx with attrs := ⟨push_attrs s.1.refl.inputs ctx.attrs.arr⟩ }))) := by
  unfold write_header_body program_sources
  split
  · simp only []
    split
    · split <;> simp
    · simp
  · simp

/-- The reflection pass over a material with one program, field by field. -/
theorem reflection_fields (inp : input_t) (spirvcross : spirvcross_t) (k : List Nat)
    (prog : program_t) (vs_src fs_src : spirvcross_source_t) (ctx : lx.m.WriteContext)
    (hp : inp.programs = [(k, prog)])
    (hs : program_sources inp spirvcross prog = some (vs_src, fs_src)) :
    ∃ ctx', lxtap_write_header inp spirvcross ctx = some ctx' ∧
      ctx'.attrs.arr =
        ctx.attrs.arr ++ (vs_src.refl.inputs.filter (fun a => decide (a.slot ≥ 0))).map to_mattr ∧
      ctx'.vs_uniform_block.value =
        vs_src.refl.uniform_blocks.foldl (fun (m : lx.m.uniform_block_t) ub => merge_block ub m)
          ctx.vs_uniform_block.value ∧
      ctx'.vs_uniform_block.is_empty =
        (if vs_src.refl.uniform_blocks.isEmpty ∧ fs_src.refl.uniform_blocks.isEmpty
          then ctx.vs_uniform_block.is_empty else false) ∧
      ctx'.fs_uniform_block.value =
        fs_src.refl.uniform_blocks.foldl (fun (m : lx.m.uniform_block_t) ub => merge_block ub m)
          ctx.fs_uniform_block.value ∧
      ctx'.fs_uniform_block.is_empty = ctx.fs_uniform_block.is_empty ∧
      ctx'.fs_textures =
        (if fs_src.refl.images.isEmpty then ctx.fs_textures
          else { value := ⟨ctx.fs_textures.value.arr ++ fs_src.refl.images.map to_mt⟩,
                 is_empty := false }) ∧
      ctx'.programs = ctx.programs := by
  have h : lxtap_write_header inp spirvcross ctx =
      some (push_images fs_src.refl.images (fs_uniforms fs_src.refl.uniform_blocks
        (vs_uniforms vs_src.refl.uniform_blocks
          { ctx with attrs := ⟨push_attrs vs_src.refl.inputs ctx.attrs.arr⟩ }))) := by
    unfold lxtap_write_header
    rw [hp]
    simp only [List.foldl_cons, List.foldl_nil]
    rw [write_header_body_eq, hs]
    rfl
  refine ⟨_, h, ?_⟩
  · simp only [push_images_eq, fs_uniforms_eq, vs_uniforms_eq, push_attrs_eq]
    refine ⟨?_, ?_, ?_, ?_, ?_, ?_, ?_⟩
    · trivial
    · cases hf : fs_src.refl.uniform_blocks.isEmpty <;> simp [optional_fold_value]
    · cases hf : fs_src.refl.uniform_blocks.isEmpty
      · simp
      · simp only [if_true]
        cases hv : vs_src.refl.uniform_blocks with
        | nil => simp
        | cons b bs =>
          have := optional_fold_present (b :: bs).dropLast ((b :: bs).getLast (by simp))
            ctx.vs_uniform_block
          rw [List.dropLast_append_getLast] at this
          simpa using this
    · trivial
    · trivial
    · trivial
    · trivial

end shdc

namespace shdc

/-! ## The reflection pass on a fresh context -/

/-- C13, evaluated: the material `one_program` whose fragment stage has one
uniform block `c` (slot 2, 16 bytes, one member) and whose vertex stage has
none. The pass merges the block into the value of the fs optional but leaves
it absent, and marks the vs optional present although no vertex-stage block
exists: the output carries the presence byte 01 and an all-zero block for the
vs section and the presence byte 00 for the fs section. -/
theorem fs_block_is_left_absent :
    (lxtap_write_header one_program fs_block_only mat_ctx).map
        (fun c => (c.fs_uniform_block.is_empty, c.fs_uniform_block.value,
          c.vs_uniform_block.is_empty, c.vs_uniform_block.value)) =
      some (true, ⟨2, lx.m.bytes.ctor [99], 16, ⟨[⟨lx.m.bytes.ctor [111], 4, 1, 0⟩]⟩⟩,
        false, ⟨0, lx.m.bytes.ctor [], 0, ⟨[]⟩⟩) ∧
    (lxtap_write_header one_program fs_block_only mat_ctx).map lx.m.Writer.gen =
      some [0xCF, 0xBA, 1, 0, 0, 0, 0x01, 6, 0, 0, 0, 0, 0, 0, 0, 0x00, 0x00, 0, 0] := by
  decide

/-- C14: for a material with one program whose sources resolve, the
reflection pass on the fresh context succeeds and leaves as attribute list
the vertex-stage inputs with slot >= 0, in their order, each as the record
built from it (`to_mattr`: slot as `uint16_t`, name, type as one byte); an
input with a negative slot adds nothing. The record's slot, name and type are
the input's own whenever the slot is below 65536 and the type below 256. -/
theorem reflection_attrs (inp : input_t) (spirvcross : spirvcross_t) (k : List Nat)
    (prog : program_t) (vs_src fs_src : spirvcross_source_t)
    (hp : inp.programs = [(k, prog)])
    (hs : program_sources inp spirvcross prog = some (vs_src, fs_src)) :
    ∃ ctx', lxtap_write_header inp spirvcross mat_ctx = some ctx' ∧
      ctx'.attrs.arr =
        (vs_src.refl.inputs.filter (fun a => decide (a.slot ≥ 0))).map to_mattr ∧
      ∀ a : attr_t, a.slot ≥ 0 → a.slot < 65536 → a.type < 256 →
        ((to_mattr a).slot : Int) = a.slot ∧ (to_mattr a).name.str = a.name ∧
        (to_mattr a).type = a.type := by
  obtain ⟨ctx', h, hattrs, -⟩ := reflection_fields inp spirvcross k prog vs_src fs_src mat_ctx hp hs
  refine ⟨ctx', h, ?_, ?_⟩
  · rw [hattrs]; simp [mat_ctx]
  · intro a h0 h1 h2
    refine ⟨?_, rfl, ?_⟩
    · simp only [to_mattr]
      rw [Int.toNat_of_nonneg (Int.emod_nonneg _ (by decide))]
      exact Int.emod_eq_of_lt h0 h1
    · exact Nat.mod_eq_of_lt h2

/-- Witness of C14: the sample reflection has inputs in slots 0, -1 and 1; the
attribute list is the first and the third. -/
theorem reflection_attrs_witness :
    ∃ ctx', lxtap_write_header one_program one_program_reflection mat_ctx = some ctx' ∧
      ctx'.attrs.arr =
        [⟨0, lx.m.bytes.ctor [112], 3⟩, ⟨1, lx.m.bytes.ctor [110], 3⟩] :=
  let ⟨c, h1, h2, _⟩ := reflection_attrs one_program one_program_reflection [112] the_program
    ⟨0, [118], sample_vs_refl⟩ ⟨1, [102], sample_fs_refl⟩ rfl rfl
  ⟨c, h1, h2⟩

/-- C15: for a material with one program whose sources resolve, the
reflection pass on the fresh context succeeds and leaves the texture optional
present exactly when the fragment stage has an image binding; its texture
list is the image bindings in order, each as the record built from it
(`to_mt`: slot as `uint8_t`, name, dimensionality as one byte, the binding's
own values whenever slot and dimensionality are below 256); with no image
binding the texture section is written as the single byte 0x00. -/
theorem reflection_textures (inp : input_t) (spirvcross : spirvcross_t) (k : List Nat)
    (prog : program_t) (vs_src fs_src : spirvcross_source_t)
    (hp : inp.programs = [(k, prog)])
    (hs : program_sources inp spirvcross prog = some (vs_src, fs_src)) :
    ∃ ctx', lxtap_write_header inp spirvcross mat_ctx = some ctx' ∧
      (ctx'.fs_textures.is_empty = false ↔ fs_src.refl.images ≠ []) ∧
      ctx'.fs_textures.value.arr = fs_src.refl.images.map to_mt ∧
      (fs_src.refl.images = [] → ctx'.fs_textures.write [] = [0x00]) ∧
      ∀ img : image_t, img.slot ≥ 0 → img.slot < 256 → img.type < 256 →
        ((to_mt img).slot : Int) = img.slot ∧ (to_mt img).name.str = img.name ∧
        (to_mt img).type = img.type := by
  obtain ⟨ctx', h, -, -, -, -, -, htex, -⟩ :=
    reflection_fields inp spirvcross k prog vs_src fs_src mat_ctx hp hs
  refine ⟨ctx', h, ?_, ?_, ?_, ?_⟩
  · rw [htex]
    cases fs_src.refl.images <;> simp [mat_ctx]
  · rw [htex]
    cases fs_src.refl.images <;> simp [mat_ctx]
  · intro hnil
    rw [htex, hnil]
    simp [mat_ctx, lx.m.optional.write]
  · intro img h0 h1 h2
    refine ⟨?_, rfl, ?_⟩
    · simp only [to_mt]
      rw [Int.toNat_of_nonneg (Int.emod_nonneg _ (by decide))]
      exact Int.emod_eq_of_lt h0 h1
    · exact Nat.mod_eq_of_lt h2

/-- Witness of C15: the sample reflection has two image bindings; the texture
optional is present and holds both in order. -/
theorem reflection_textures_witness :
    ∃ ctx', lxtap_write_header one_program one_program_reflection mat_ctx = some ctx' ∧
      (ctx'.fs_textures.is_empty = false ↔ sample_fs_refl.images ≠ []) ∧
      ctx'.fs_textures.value.arr =
        [⟨0, lx.m.bytes.ctor [116], 1⟩, ⟨1, lx.m.bytes.ctor [117], 2⟩] :=
  let ⟨c, h1, h2, h3, _⟩ := reflection_textures one_program one_program_reflection [112]
    the_program ⟨0, [118], sample_vs_refl⟩ ⟨1, [102], sample_fs_refl⟩ rfl rfl
  ⟨c, h1, h2, h3⟩

/-- C17, refuted as stated: the material `one_program` with one vertex-stage
uniform block of 256 bytes (slot 0, name `a`). After the pass the vs optional
is present with slot 0 and name `a`, but its size field is 0, not 256: the
field is a `uint8_t`. -/
theorem block_size_is_cut_to_a_byte :
    big_block.sources.map (fun s => s.refl.uniform_blocks.map (fun ub => ub.size)) =
      [[256], []] ∧
    (lxtap_write_header one_program big_block mat_ctx).map
        (fun c => (c.vs_uniform_block.is_empty, c.vs_uniform_block.value.slot,
          c.vs_uniform_block.value.name, c.vs_uniform_block.value.size)) =
      some (false, 0, lx.m.bytes.ctor [97], 0) := by
  decide

/-- C17, amended: for a material with one program whose sources resolve and
whose vertex stage has the uniform blocks `init ++ [bn]`, the reflection pass
on the fresh context succeeds and leaves the vs optional present with the
name of the last block `bn` and with the slot and the size of `bn` converted
to `uint8_t` (reduced modulo 256), which are the slot and the size of `bn`
themselves when these lie in 0..255; nothing of the slot, name and size of
the earlier blocks is left. -/
theorem last_block_wins (inp : input_t) (spirvcross : spirvcross_t) (k : List Nat)
    (prog : program_t) (vs_src fs_src : spirvcross_source_t)
    (init : List uniform_block_t) (bn : uniform_block_t)
    (hp : inp.programs = [(k, prog)])
    (hs : program_sources inp spirvcross prog = some (vs_src, fs_src))
    (hb : vs_src.refl.uniform_blocks = init ++ [bn]) :
    ∃ ctx', lxtap_write_header inp spirvcross mat_ctx = some ctx' ∧
      ctx'.vs_uniform_block.is_empty = false ∧
      ctx'.vs_uniform_block.value.slot = (bn.slot % 256).toNat ∧
      ctx'.vs_uniform_block.value.name = lx.m.bytes.ctor bn.name ∧
      ctx'.vs_uniform_block.value.size = (bn.size % 256).toNat ∧
      (0 ≤ bn.slot → bn.slot < 256 → (ctx'.vs_uniform_block.value.slot : Int) = bn.slot) ∧
      (0 ≤ bn.size → bn.size < 256 → (ctx'.vs_uniform_block.value.size : Int) = bn.size) := by
  obtain ⟨ctx', h, -, hval, hemp, -⟩ :=
    reflection_fields inp spirvcross k prog vs_src fs_src mat_ctx hp hs
  rw [hb, merge_fold_last] at hval
  refine ⟨ctx', h, ?_, ?_, ?_, ?_, ?_, ?_⟩
  · rw [hemp, hb]; simp
  · rw [hval]
  · rw [hval]
  · rw [hval]
  · intro h0 h1
    rw [hval]
    simp only []
    rw [Int.toNat_of_nonneg (Int.emod_nonneg _ (by decide))]
    exact Int.emod_eq_of_lt h0 h1
  · intro h0 h1
    rw [hval]
    simp only []
    rw [Int.toNat_of_nonneg (Int.emod_nonneg _ (by decide))]
    exact Int.emod_eq_of_lt h0 h1

/-- Witness of C17 amended: the sample reflection has the vertex-stage blocks
`a` (slot 0, 64 bytes) and `b` (slot 1, 32 bytes); the block left is present
with slot 1, name `b` and size 32. -/
theorem last_block_wins_witness :
    ∃ ctx', lxtap_write_header one_program one_program_reflection mat_ctx = some ctx' ∧
      ctx'.vs_uniform_block.is_empty = false ∧
      ctx'.vs_uniform_block.value.slot = 1 ∧
      ctx'.vs_uniform_block.value.name = lx.m.bytes.ctor [98] ∧
      ctx'.vs_uniform_block.value.size = 32 :=
  let ⟨c, h1, h2, h3, h4, h5, _⟩ := last_block_wins one_program one_program_reflection [112]
    the_program ⟨0, [118], sample_vs_refl⟩ ⟨1, [102], sample_fs_refl⟩
    [⟨0, 64, [97], [⟨[109], 5, 1, 0⟩]⟩] ⟨1, 32, [98], [⟨[99], 4, 1, 0⟩, ⟨[100], 4, 1, 16⟩]⟩
    rfl rfl rfl
  ⟨c, h1, h2, h3, h4, h5⟩

/-- C18, refuted as stated: the material `one_program` with the vertex-stage
uniform blocks `a` (slot 0, 64 bytes, member `m` at offset 0) and `b` (slot
1, 272 bytes, member `n` at offset 256). After the pass the block holds two
members, but the second is stored with offset 0, not 256, and the size field
is 16, not 272: offset and size are `uint8_t` fields. -/
theorem member_offset_is_cut_to_a_byte :
    two_blocks.sources.map (fun s => s.refl.uniform_blocks.map
        (fun ub => (ub.size, ub.uniforms.map (fun u => u.offset)))) =
      [[(64, [0]), (272, [256])], []] ∧
    (lxtap_write_header one_program two_blocks mat_ctx).map
        (fun c => (c.vs_uniform_block.value.size,
          c.vs_uniform_block.value.params.arr.map (fun u => (u.name.str, u.offset)))) =
      some (16, [([109], 0), ([110], 0)]) := by
  decide

/-- C18, amended: for a material with one program whose sources resolve, the
reflection pass on the fresh context succeeds and leaves as member list of
the vs uniform block the members of all the vertex-stage blocks, in order,
each as the record built from it (`to_mu`: name, and type, array count and
offset as single bytes, the member's own values when these lie in 0..255):
members of earlier blocks are kept. With two blocks the member count is the
sum of both counts, the name is that of the second block and slot and size
are those of the second block converted to `uint8_t`. -/
theorem block_members_accumulate (inp : input_t) (spirvcross : spirvcross_t) (k : List Nat)
    (prog : program_t) (vs_src fs_src : spirvcross_source_t)
    (hp : inp.programs = [(k, prog)])
    (hs : program_sources inp spirvcross prog = some (vs_src, fs_src)) :
    ∃ ctx', lxtap_write_header inp spirvcross mat_ctx = some ctx' ∧
      ctx'.vs_uniform_block.value.params.arr =
        (vs_src.refl.uniform_blocks.flatMap (fun ub => ub.uniforms)).map to_mu ∧
      (∀ b1 b2 : uniform_block_t, vs_src.refl.uniform_blocks = [b1, b2] →
        ctx'.vs_uniform_block.value.params.arr.length = b1.uniforms.length + b2.uniforms.length ∧
        ctx'.vs_uniform_block.value.slot = (b2.slot % 256).toNat ∧
        ctx'.vs_uniform_block.value.name = lx.m.bytes.ctor b2.name ∧
        ctx'.vs_uniform_block.value.size = (b2.size % 256).toNat) ∧
      ∀ u : uniform_t, u.type < 256 → 0 ≤ u.array_count → u.array_count < 256 →
        0 ≤ u.offset → u.offset < 256 →
        (to_mu u).name.str = u.name ∧ (to_mu u).type = u.type ∧
        ((to_mu u).array_count : Int) = u.array_count ∧ ((to_mu u).offset : Int) = u.offset := by
  obtain ⟨ctx', h, -, hval, -⟩ :=
    reflection_fields inp spirvcross k prog vs_src fs_src mat_ctx hp hs
  refine ⟨ctx', h, ?_, ?_, ?_⟩
  · rw [hval, merge_fold_eq]; simp [mat_ctx]
  · intro b1 b2 hb
    have hb' : vs_src.refl.uniform_blocks = [b1] ++ [b2] := by rw [hb]; rfl
    rw [hb', merge_fold_last] at hval
    rw [hval]
    simp [mat_ctx]
  · intro u h1 h2 h3 h4 h5
    refine ⟨rfl, Nat.mod_eq_of_lt h1, ?_, ?_⟩
    · simp only [to_mu]
      rw [Int.toNat_of_nonneg (Int.emod_nonneg _ (by decide))]
      exact Int.emod_eq_of_lt h2 h3
    · simp only [to_mu]
      rw [Int.toNat_of_nonneg (Int.emod_nonneg _ (by decide))]
      exact Int.emod_eq_of_lt h4 h5

/-- Witness of C18 amended: the sample reflection has a vertex-stage block
with one member and one with two; the block left holds the three, in order. -/
theorem block_members_accumulate_witness :
    ∃ ctx', lxtap_write_header one_program one_program_reflection mat_ctx = some ctx' ∧
      ctx'.vs_uniform_block.value.params.arr =
        [⟨lx.m.bytes.ctor [109], 5, 1, 0⟩, ⟨lx.m.bytes.ctor [99], 4, 1, 0⟩,
         ⟨lx.m.bytes.ctor [100], 4, 1, 16⟩] :=
  let ⟨c, h1, h2, _⟩ := block_members_accumulate one_program one_program_reflection [112]
    the_program ⟨0, [118], sample_vs_refl⟩ ⟨1, [102], sample_fs_refl⟩ rfl rfl
  ⟨c, h1, h2⟩

end shdc

namespace shdc

/-! ## The payload pass, snippet by snippet -/

/-- Whatever the snippet type, the program leaves the loop body with its
`vs` replaced by the stored payload and nothing else changed. -/
theorem attach_eq (type : snippet_t.type_t) (source_code : List Nat)
    (blob : Option bytecode_blob_t) (p : lx.m.program_t) :
    attach type source_code blob p = { p with vs := stored source_code blob } := by
  unfold attach stored
  cases blob <;> (split_ifs <;> rfl)

theorem find_current_p_some (slang : Nat) (mprogs : List lx.m.program_t) (i : Nat)
    (h : find_current_p slang mprogs = some i) :
    ∃ p, mprogs[i]? = some p ∧ p.lang = slang := by
  induction mprogs generalizing i with
  | nil => simp [find_current_p] at h
  | cons q qs ih =>
    unfold find_current_p at h
    by_cases hq : q.lang = slang
    · simp only [hq, if_true, Option.some.injEq] at h
      subst h
      exact ⟨q, by simp, hq⟩
    · simp only [hq, if_false, Option.map_eq_some'] at h
      obtain ⟨j, hj, rfl⟩ := h
      obtain ⟨p, hp, hl⟩ := ih j hj
      exact ⟨p, by simpa using hp, hl⟩

theorem find_current_p_none (slang : Nat) (mprogs : List lx.m.program_t) :
    find_current_p slang mprogs = none ↔ slang ∉ mprogs.map (fun p => p.lang) := by
  induction mprogs with
  | nil => simp [find_current_p]
  | cons q qs ih =>
    unfold find_current_p
    by_cases hq : q.lang = slang
    · simp [hq]
    · simp only [hq, if_false, Option.map_eq_none', ih, List.map_cons, List.mem_cons, not_or]
      constructor
      · intro h; exact ⟨fun e => hq e.symm, h⟩
      · intro h; exact h.2

/-- One iteration of the payload loop on a vertex or fragment snippet: the
program of the language gets the stored payload as its `vs`, or a new
program that has it is pushed. -/
theorem loop_body_stage (spirvcross : spirvcross_t) (bytecode : bytecode_t) (slang : Nat)
    (u_vs u_fs : lx.m.source_type) (snippet : snippet_t) (snippet_index : Nat)
    (mprogs mprogs' : List lx.m.program_t) (hst : is_stage snippet = true)
    (h : loop_body spirvcross bytecode slang u_vs u_fs snippet snippet_index mprogs =
      some mprogs') :
    ∃ src, source_of spirvcross snippet_index = some src ∧
      ((∃ i p, find_current_p slang mprogs = some i ∧ mprogs[i]? = some p ∧ p.lang = slang ∧
          mprogs' = mprogs.set i
            { p with vs := stored src.source_code (blob_of bytecode snippet_index) }) ∨
       (slang ∉ mprogs.map (fun p => p.lang) ∧
          mprogs' = mprogs ++
            [{ new_prog slang u_vs u_fs with
               vs := stored src.source_code (blob_of bytecode snippet_index) }])) := by
  have hst' : ¬(snippet.type ≠ .VS ∧ snippet.type ≠ .FS) := by
    simp only [is_stage, Bool.or_eq_true, decide_eq_true_eq] at hst
    tauto
  unfold loop_body at h
  simp only [hst', if_false] at h
  by_cases hneg : spirvcross.find_source_by_snippet_index ↑snippet_index < 0
  · simp [hneg] at h
  · simp only [hneg, if_false] at h
    cases hsrc : spirvcross.sources[(spirvcross.find_source_by_snippet_index ↑snippet_index).toNat]? with
    | none => simp [hsrc] at h
    | some src =>
      simp only [hsrc] at h
      refine ⟨src, by simp [source_of, hneg, hsrc], ?_⟩
      cases hf : find_current_p slang mprogs with
      | some i =>
        obtain ⟨p, hp, hl⟩ := find_current_p_some slang mprogs i hf
        simp only [hf, hp, Option.some.injEq, attach_eq] at h
        exact Or.inl ⟨i, p, rfl, hp, hl, h.symm⟩
      | none =>
        simp only [hf, List.getElem?_concat_length, Option.some.injEq, attach_eq] at h
        refine Or.inr ⟨(find_current_p_none slang mprogs).1 hf, ?_⟩
        rw [← h]
        simp [blob_of]

theorem loop_body_skip (spirvcross : spirvcross_t) (bytecode : bytecode_t) (slang : Nat)
    (u_vs u_fs : lx.m.source_type) (snippet : snippet_t) (snippet_index : Nat)
    (mprogs : List lx.m.program_t) (hst : is_stage snippet = false) :
    loop_body spirvcross bytecode slang u_vs u_fs snippet snippet_index mprogs = some mprogs := by
  have hst' : snippet.type ≠ .VS ∧ snippet.type ≠ .FS := by
    simp only [is_stage, Bool.or_eq_false_iff, decide_eq_false_iff_not] at hst
    exact hst
  unfold loop_body
  simp [hst']

theorem map_set_same {α β : Type} (f : α → β) (l : List α) (i : Nat) (p q : α)
    (h : l[i]? = some p) (hf : f q = f p) : (l.set i q).map f = l.map f := by
  induction l generalizing i with
  | nil => simp
  | cons a as ih =>
    cases i with
    | zero =>
      simp only [List.getElem?_cons_zero, Option.some.injEq] at h
      subst h
      simp [hf]
    | succ j =>
      simp only [List.getElem?_cons_succ] at h
      simp [ih j h]

/-- One iteration leaves the `fs` of every program as it was; a program it
pushes has the `fs` it was created with. -/
theorem loop_body_fs (spirvcross : spirvcross_t) (bytecode : bytecode_t) (slang : Nat)
    (u_vs u_fs : lx.m.source_type) (snippet : snippet_t) (snippet_index : Nat)
    (mprogs mprogs' : List lx.m.program_t)
    (h : loop_body spirvcross bytecode slang u_vs u_fs snippet snippet_index mprogs =
      some mprogs') :
    ∃ k, mprogs'.map (fun p => p.fs) =
      mprogs.map (fun p => p.fs) ++ List.replicate k ⟨u_fs, lx.m.bytes.ctor []⟩ := by
  cases hst : is_stage snippet with
  | false =>
    rw [loop_body_skip _ _ _ _ _ _ _ _ hst] at h
    exact ⟨0, by simp [Option.some.inj h.symm]⟩
  | true =>
    obtain ⟨src, -, hcase⟩ := loop_body_stage _ _ _ _ _ _ _ _ _ hst h
    rcases hcase with ⟨i, p, -, hp, -, rfl⟩ | ⟨-, rfl⟩
    · refine ⟨0, ?_⟩
      rw [List.replicate_zero, List.append_nil]
      refine map_set_same (fun p => p.fs) mprogs i p _ hp ?_
      rfl
    · exact ⟨1, by simp [new_prog]⟩

/-- One iteration on a language that has a program leaves the language tags
as they were. -/
theorem loop_body_reuse (spirvcross : spirvcross_t) (bytecode : bytecode_t) (slang : Nat)
    (u_vs u_fs : lx.m.source_type) (snippet : snippet_t) (snippet_index : Nat)
    (mprogs mprogs' : List lx.m.program_t)
    (hin : slang ∈ mprogs.map (fun p => p.lang))
    (h : loop_body spirvcross bytecode slang u_vs u_fs snippet snippet_index mprogs =
      some mprogs') :
    mprogs'.map (fun p => p.lang) = mprogs.map (fun p => p.lang) := by
  cases hst : is_stage snippet with
  | false =>
    rw [loop_body_skip _ _ _ _ _ _ _ _ hst] at h
    rw [Option.some.inj h.symm]
  | true =>
    obtain ⟨src, -, hcase⟩ := loop_body_stage _ _ _ _ _ _ _ _ _ hst h
    rcases hcase with ⟨i, p, -, hp, -, rfl⟩ | ⟨hnot, -⟩
    · refine map_set_same (fun p => p.lang) mprogs i p _ hp ?_
      rfl
    · exact absurd hin hnot

/-- One iteration on a vertex or fragment snippet of a language below 256
that has no program pushes one program with that language tag. -/
theorem loop_body_create (spirvcross : spirvcross_t) (bytecode : bytecode_t) (slang : Nat)
    (u_vs u_fs : lx.m.source_type) (snippet : snippet_t) (snippet_index : Nat)
    (mprogs mprogs' : List lx.m.program_t) (hlt : slang < 256)
    (hnot : slang ∉ mprogs.map (fun p => p.lang)) (hst : is_stage snippet = true)
    (h : loop_body spirvcross bytecode slang u_vs u_fs snippet snippet_index mprogs =
      some mprogs') :
    mprogs'.map (fun p => p.lang) = mprogs.map (fun p => p.lang) ++ [slang] := by
  obtain ⟨src, -, hcase⟩ := loop_body_stage _ _ _ _ _ _ _ _ _ hst h
  rcases hcase with ⟨i, p, hf, -, -, -⟩ | ⟨-, rfl⟩
  · rw [(find_current_p_none slang mprogs).2 hnot] at hf
    exact absurd hf (by simp)
  · simp [new_prog, Nat.mod_eq_of_lt hlt]

theorem snippet_loop_fs (spirvcross : spirvcross_t) (bytecode : bytecode_t) (slang : Nat)
    (u_vs u_fs : lx.m.source_type) (snippets : List snippet_t) (snippet_index : Nat)
    (mprogs mprogs' : List lx.m.program_t)
    (h : snippet_loop spirvcross bytecode slang u_vs u_fs snippets snippet_index mprogs =
      some mprogs') :
    ∃ k, mprogs'.map (fun p => p.fs) =
      mprogs.map (fun p => p.fs) ++ List.replicate k ⟨u_fs, lx.m.bytes.ctor []⟩ := by
  induction snippets generalizing snippet_index mprogs with
  | nil =>
    simp only [snippet_loop, Option.some.injEq] at h
    exact ⟨0, by simp [h]⟩
  | cons s rest ih =>
    unfold snippet_loop at h
    cases hb : loop_body spirvcross bytecode slang u_vs u_fs s snippet_index mprogs with
    | none => simp [hb] at h
    | some m1 =>
      simp only [hb] at h
      obtain ⟨k1, h1⟩ := loop_body_fs _ _ _ _ _ _ _ _ _ hb
      obtain ⟨k2, h2⟩ := ih _ _ h
      refine ⟨k1 + k2, ?_⟩
      rw [h2, h1, List.append_assoc, List.replicate_add]

theorem snippet_loop_reuse (spirvcross : spirvcross_t) (bytecode : bytecode_t) (slang : Nat)
    (u_vs u_fs : lx.m.source_type) (snippets : List snippet_t) (snippet_index : Nat)
    (mprogs mprogs' : List lx.m.program_t)
    (hin : slang ∈ mprogs.map (fun p => p.lang))
    (h : snippet_loop spirvcross bytecode slang u_vs u_fs snippets snippet_index mprogs =
      some mprogs') :
    mprogs'.map (fun p => p.lang) = mprogs.map (fun p => p.lang) := by
  induction snippets generalizing snippet_index mprogs with
  | nil =>
    simp only [snippet_loop, Option.some.injEq] at h
    rw [h]
  | cons s rest ih =>
    unfold snippet_loop at h
    cases hb : loop_body spirvcross bytecode slang u_vs u_fs s snippet_index mprogs with
    | none => simp [hb] at h
    | some m1 =>
      simp only [hb] at h
      have h1 := loop_body_reuse _ _ _ _ _ _ _ _ _ hin hb
      rw [ih _ _ (by rw [h1]; exact hin) h, h1]

theorem snippet_loop_create (spirvcross : spirvcross_t) (bytecode : bytecode_t) (slang : Nat)
    (u_vs u_fs : lx.m.source_type) (snippets : List snippet_t) (snippet_index : Nat)
    (mprogs mprogs' : List lx.m.program_t) (hlt : slang < 256)
    (hnot : slang ∉ mprogs.map (fun p => p.lang))
    (hany : ∃ s ∈ snippets, is_stage s = true)
    (h : snippet_loop spirvcross bytecode slang u_vs u_fs snippets snippet_index mprogs =
      some mprogs') :
    mprogs'.map (fun p => p.lang) = mprogs.map (fun p => p.lang) ++ [slang] := by
  induction snippets generalizing snippet_index mprogs with
  | nil => simp at hany
  | cons s rest ih =>
    unfold snippet_loop at h
    cases hb : loop_body spirvcross bytecode slang u_vs u_fs s snippet_index mprogs with
    | none => simp [hb] at h
    | some m1 =>
      simp only [hb] at h
      cases hst : is_stage s with
      | true =>
        have h1 := loop_body_create _ _ _ _ _ _ _ _ _ hlt hnot hst hb
        rw [snippet_loop_reuse _ _ _ _ _ _ _ _ _ (by rw [h1]; simp) h, h1]
      | false =>
        rw [loop_body_skip _ _ _ _ _ _ _ _ hst] at hb
        have hm : m1 = mprogs := (Option.some.inj hb).symm
        subst hm
        obtain ⟨s', hs', hst'⟩ := hany
        rcases List.mem_cons.1 hs' with rfl | hmem
        · rw [hst] at hst'; exact absurd hst' (by simp)
        · exact ih _ _ hnot ⟨s', hmem, hst'⟩ h

end shdc

namespace shdc

/-! ## The passes inside the driver -/

/-- The payload pass changes nothing but the program list. -/
theorem payload_pass_frame (inp : input_t) (spirvcross : spirvcross_t) (bytecode : bytecode_t)
    (slang : Nat) (u_vs u_fs : lx.m.source_type) (ctx ctx' : lx.m.WriteContext)
    (h : lxtap_write_shader_sources_and_blobs inp spirvcross bytecode slang u_vs u_fs ctx =
      some ctx') :
    ctx'.attrs = ctx.attrs ∧ ctx'.vs_uniform_block = ctx.vs_uniform_block ∧
    ctx'.fs_uniform_block = ctx.fs_uniform_block ∧ ctx'.fs_textures = ctx.fs_textures ∧
    snippet_loop spirvcross bytecode slang u_vs u_fs inp.snippets 0 ctx.programs.arr =
      some ctx'.programs.arr := by
  unfold lxtap_write_shader_sources_and_blobs at h
  cases hl : snippet_loop spirvcross bytecode slang u_vs u_fs inp.snippets 0 ctx.programs.arr with
  | none => simp [hl] at h
  | some m =>
    simp only [hl, Option.some.injEq] at h
    subst h
    exact ⟨rfl, rfl, rfl, rfl, rfl⟩

theorem write_header_body_programs (inp : input_t) (spirvcross : spirvcross_t)
    (prog : program_t) (ctx ctx' : lx.m.WriteContext)
    (h : write_header_body inp spirvcross prog ctx = some ctx') :
    ctx'.programs = ctx.programs := by
  rw [write_header_body_eq] at h
  cases hs : program_sources inp spirvcross prog with
  | none => simp [hs] at h
  | some s =>
    simp only [hs, Option.map_some', Option.some.injEq] at h
    rw [← h]
    simp only [push_images_eq, fs_uniforms_eq, vs_uniforms_eq]

/-- The reflection pass leaves the program list as it was. -/
theorem lxtap_write_header_programs (inp : input_t) (spirvcross : spirvcross_t)
    (ctx ctx' : lx.m.WriteContext)
    (h : lxtap_write_header inp spirvcross ctx = some ctx') :
    ctx'.programs = ctx.programs := by
  unfold lxtap_write_header at h
  generalize inp.programs = progs at h
  induction progs generalizing ctx with
  | nil =>
    simp only [List.foldl_nil, Option.some.injEq] at h
    rw [h]
  | cons item rest ih =>
    simp only [List.foldl_cons] at h
    cases hb : write_header_body inp spirvcross item.2 ctx with
    | none =>
      rw [hb] at h
      have hnone : ∀ l : List (List Nat × program_t),
          l.foldl (fun (c : Option lx.m.WriteContext) item =>
            match c with
            | none => none
            | some c => write_header_body inp spirvcross item.2 c) none = none := by
        intro l
        induction l with
        | nil => rfl
        | cons a as iha => simpa using iha
      rw [hnone] at h
      exact absurd h (by simp)
    | some c1 =>
      rw [hb] at h
      rw [ih c1 h, write_header_body_programs _ _ _ _ _ hb]

/-! ## The driver's loop -/

theorem gen_loop_skip (args : args_t) (inp : input_t) (spirvcross : Nat → spirvcross_t)
    (bytecode : Nat → bytecode_t) (check_errors : input_t → spirvcross_t → Nat → Bool)
    (u_vs u_fs : lx.m.source_type) (fuel i : Nat) (w : Bool) (ctx : lx.m.WriteContext)
    (hreq : is_requested args i = false) :
    gen_loop args inp spirvcross bytecode check_errors u_vs u_fs (fuel + 1) i w ctx =
      gen_loop args inp spirvcross bytecode check_errors u_vs u_fs fuel (i + 1) w ctx := by
  have h : ¬(args.slang &&& slang_t.bit i ≠ 0) := by
    simpa [is_requested] using hreq
  simp only [gen_loop, h, if_false]

theorem gen_loop_first (args : args_t) (inp : input_t) (spirvcross : Nat → spirvcross_t)
    (bytecode : Nat → bytecode_t) (check_errors : input_t → spirvcross_t → Nat → Bool)
    (u_vs u_fs : lx.m.source_type) (fuel i : Nat) (ctx : lx.m.WriteContext)
    (hreq : is_requested args i = true) :
    gen_loop args inp spirvcross bytecode check_errors u_vs u_fs (fuel + 1) i false ctx =
      if check_errors inp (spirvcross i) i then .error .check_failed
      else if inp.programs.length ≠ 1 then .error .usage_exit
      else
        match lxtap_write_header inp (spirvcross i) ctx with
        | none => .error .pass_aborted
        | some h =>
          match lxtap_write_shader_sources_and_blobs inp (spirvcross i) (bytecode i) i
              u_vs u_fs h with
          | none => .error .pass_aborted
          | some c =>
            gen_loop args inp spirvcross bytecode check_errors u_vs u_fs fuel (i + 1) true c := by
  have h : args.slang &&& slang_t.bit i ≠ 0 := by
    simpa [is_requested] using hreq
  simp only [gen_loop, ne_eq, h, not_false_eq_true, if_true]
  by_cases hc : check_errors inp (spirvcross i) i = true
  · simp [hc]
  · simp only [hc, if_false, Bool.not_false, if_true]
    by_cases hl : inp.programs.length ≠ 1
    · simp [hl]
    · simp only [hl, if_false]
      cases lxtap_write_header inp (spirvcross i) ctx <;> rfl

theorem gen_loop_later (args : args_t) (inp : input_t) (spirvcross : Nat → spirvcross_t)
    (bytecode : Nat → bytecode_t) (check_errors : input_t → spirvcross_t → Nat → Bool)
    (u_vs u_fs : lx.m.source_type) (fuel i : Nat) (ctx : lx.m.WriteContext)
    (hreq : is_requested args i = true) :
    gen_loop args inp spirvcross bytecode check_errors u_vs u_fs (fuel + 1) i true ctx =
      if check_errors inp (spirvcross i) i then .error .check_failed
      else
        match lxtap_write_shader_sources_and_blobs inp (spirvcross i) (bytecode i) i
            u_vs u_fs ctx with
        | none => .error .pass_aborted
        | some c =>
          gen_loop args inp spirvcross bytecode check_errors u_vs u_fs fuel (i + 1) true c := by
  have h : args.slang &&& slang_t.bit i ≠ 0 := by
    simpa [is_requested] using hreq
  simp only [gen_loop, ne_eq, h, not_false_eq_true, if_true]
  by_cases hc : check_errors inp (spirvcross i) i = true
  · simp [hc]
  · simp [hc]

/-- Once the header is written, the loop changes nothing but the programs. -/
theorem gen_loop_written_frame (args : args_t) (inp : input_t)
    (spirvcross : Nat → spirvcross_t) (bytecode : Nat → bytecode_t)
    (check_errors : input_t → spirvcross_t → Nat → Bool) (u_vs u_fs : lx.m.source_type)
    (fuel i : Nat) (ctx ctx' : lx.m.WriteContext)
    (h : gen_loop args inp spirvcross bytecode check_errors u_vs u_fs fuel i true ctx =
      .ok ctx') :
    ctx'.attrs = ctx.attrs ∧ ctx'.vs_uniform_block = ctx.vs_uniform_block ∧
    ctx'.fs_uniform_block = ctx.fs_uniform_block ∧ ctx'.fs_textures = ctx.fs_textures := by
  induction fuel generalizing i ctx with
  | zero =>
    simp only [gen_loop, Except.ok.injEq] at h
    subst h
    exact ⟨rfl, rfl, rfl, rfl⟩
  | succ n ih =>
    cases hreq : is_requested args i with
    | false =>
      rw [gen_loop_skip _ _ _ _ _ _ _ _ _ _ _ hreq] at h
      exact ih _ _ h
    | true =>
      rw [gen_loop_later _ _ _ _ _ _ _ _ _ _ hreq] at h
      by_cases hc : check_errors inp (spirvcross i) i = true
      · simp [hc] at h
      · simp only [hc, if_false] at h
        cases hp : lxtap_write_shader_sources_and_blobs inp (spirvcross i) (bytecode i) i
            u_vs u_fs ctx with
        | none => simp [hp] at h
        | some c =>
          simp only [hp] at h
          obtain ⟨h1, h2, h3, h4, -⟩ := payload_pass_frame _ _ _ _ _ _ _ _ hp
          obtain ⟨g1, g2, g3, g4⟩ := ih _ _ h
          exact ⟨g1.trans h1, g2.trans h2, g3.trans h3, g4.trans h4⟩

/-- The loop entered with no header written runs the reflection pass on the
first requested language it meets, and on no other. -/
theorem gen_loop_reflection (args : args_t) (inp : input_t)
    (spirvcross : Nat → spirvcross_t) (bytecode : Nat → bytecode_t)
    (check_errors : input_t → spirvcross_t → Nat → Bool) (u_vs u_fs : lx.m.source_type)
    (fuel i i0 : Nat) (rest : List Nat) (ctx ctx' : lx.m.WriteContext)
    (hfirst : (List.range' i fuel).filter (is_requested args) = i0 :: rest)
    (h : gen_loop args inp spirvcross bytecode check_errors u_vs u_fs fuel i false ctx =
      .ok ctx') :
    ∃ hd, lxtap_write_header inp (spirvcross i0) ctx = some hd ∧
      ctx'.attrs = hd.attrs ∧ ctx'.vs_uniform_block = hd.vs_uniform_block ∧
      ctx'.fs_uniform_block = hd.fs_uniform_block ∧ ctx'.fs_textures = hd.fs_textures := by
  induction fuel generalizing i ctx with
  | zero => simp at hfirst
  | succ n ih =>
    rw [List.range'_succ] at hfirst
    cases hreq : is_requested args i with
    | false =>
      rw [gen_loop_skip _ _ _ _ _ _ _ _ _ _ _ hreq] at h
      rw [List.filter_cons_of_neg (by simp [hreq])] at hfirst
      exact ih _ _ hfirst h
    | true =>
      rw [List.filter_cons_of_pos (by simp [hreq])] at hfirst
      have hi : i = i0 := (List.cons.inj hfirst).1
      subst hi
      rw [gen_loop_first _ _ _ _ _ _ _ _ _ _ hreq] at h
      by_cases hc : check_errors inp (spirvcross i) i = true
      · simp [hc] at h
      · simp only [hc, if_false] at h
        by_cases hl : inp.programs.length ≠ 1
        · simp [hl] at h
        · simp only [hl, if_false] at h
          cases hh : lxtap_write_header inp (spirvcross i) ctx with
          | none => simp [hh] at h
          | some hd =>
            simp only [hh] at h
            cases hp : lxtap_write_shader_sources_and_blobs inp (spirvcross i) (bytecode i) i
                u_vs u_fs hd with
            | none => simp [hp] at h
            | some c =>
              simp only [hp] at h
              obtain ⟨h1, h2, h3, h4, -⟩ := payload_pass_frame _ _ _ _ _ _ _ _ hp
              obtain ⟨g1, g2, g3, g4⟩ := gen_loop_written_frame _ _ _ _ _ _ _ _ _ _ _ h
              exact ⟨hd, rfl, g1.trans h1, g2.trans h2, g3.trans h3, g4.trans h4⟩

/-- With more than one program, or none, the loop stops at the first
requested language: on the error of the check, or else on the usage error. -/
theorem gen_loop_usage (args : args_t) (inp : input_t)
    (spirvcross : Nat → spirvcross_t) (bytecode : Nat → bytecode_t)
    (check_errors : input_t → spirvcross_t → Nat → Bool) (u_vs u_fs : lx.m.source_type)
    (fuel i i0 : Nat) (rest : List Nat) (ctx : lx.m.WriteContext)
    (hfirst : (List.range' i fuel).filter (is_requested args) = i0 :: rest)
    (hl : inp.programs.length ≠ 1) :
    gen_loop args inp spirvcross bytecode check_errors u_vs u_fs fuel i false ctx =
      if check_errors inp (spirvcross i0) i0 then .error .check_failed
      else .error .usage_exit := by
  induction fuel generalizing i with
  | zero => simp at hfirst
  | succ n ih =>
    rw [List.range'_succ] at hfirst
    cases hreq : is_requested args i with
    | false =>
      rw [gen_loop_skip _ _ _ _ _ _ _ _ _ _ _ hreq]
      rw [List.filter_cons_of_neg (by simp [hreq])] at hfirst
      exact ih _ hfirst
    | true =>
      rw [List.filter_cons_of_pos (by simp [hreq])] at hfirst
      have hi : i = i0 := (List.cons.inj hfirst).1
      subst hi
      rw [gen_loop_first _ _ _ _ _ _ _ _ _ _ hreq]
      simp [hl]

/-- With no language requested the loop does nothing. -/
theorem gen_loop_idle (args : args_t) (inp : input_t)
    (spirvcross : Nat → spirvcross_t) (bytecode : Nat → bytecode_t)
    (check_errors : input_t → spirvcross_t → Nat → Bool) (u_vs u_fs : lx.m.source_type)
    (fuel i : Nat) (w : Bool) (ctx : lx.m.WriteContext)
    (hnone : (List.range' i fuel).filter (is_requested args) = []) :
    gen_loop args inp spirvcross bytecode check_errors u_vs u_fs fuel i w ctx = .ok ctx := by
  induction fuel generalizing i with
  | zero => simp [gen_loop]
  | succ n ih =>
    rw [List.range'_succ] at hnone
    cases hreq : is_requested args i with
    | false =>
      rw [gen_loop_skip _ _ _ _ _ _ _ _ _ _ _ hreq]
      rw [List.filter_cons_of_neg (by simp [hreq])] at hnone
      exact ih _ hnone
    | true =>
      rw [List.filter_cons_of_pos (by simp [hreq])] at hnone
      exact absurd hnone (by simp)

/-- The payload pass for a language below 256 that has no program, over a
material with a vertex or fragment snippet, pushes exactly one program with
that language tag. -/
theorem payload_pass_create (inp : input_t) (spirvcross : spirvcross_t) (bytecode : bytecode_t)
    (slang : Nat) (u_vs u_fs : lx.m.source_type) (ctx ctx' : lx.m.WriteContext)
    (hstage : ∃ s ∈ inp.snippets, is_stage s = true) (hlt : slang < 256)
    (hnot : slang ∉ ctx.programs.arr.map (fun p => p.lang))
    (h : lxtap_write_shader_sources_and_blobs inp spirvcross bytecode slang u_vs u_fs ctx =
      some ctx') :
    ctx'.programs.arr.map (fun p => p.lang) = ctx.programs.arr.map (fun p => p.lang) ++ [slang] := by
  obtain ⟨-, -, -, -, hl⟩ := payload_pass_frame _ _ _ _ _ _ _ _ h
  exact snippet_loop_create _ _ _ _ _ _ _ _ _ hlt hnot hstage hl

/-- The language tags after the loop: those before it, then the requested
languages in the order the loop meets them. -/
theorem gen_loop_langs (args : args_t) (inp : input_t)
    (spirvcross : Nat → spirvcross_t) (bytecode : Nat → bytecode_t)
    (check_errors : input_t → spirvcross_t → Nat → Bool) (u_vs u_fs : lx.m.source_type)
    (fuel i : Nat) (w : Bool) (ctx ctx' : lx.m.WriteContext)
    (hstage : ∃ s ∈ inp.snippets, is_stage s = true) (hbound : i + fuel ≤ 256)
    (hlow : ∀ l ∈ ctx.programs.arr.map (fun p => p.lang), l < i)
    (h : gen_loop args inp spirvcross bytecode check_errors u_vs u_fs fuel i w ctx =
      .ok ctx') :
    ctx'.programs.arr.map (fun p => p.lang) =
      ctx.programs.arr.map (fun p => p.lang) ++
        (List.range' i fuel).filter (is_requested args) := by
  induction fuel generalizing i w ctx with
  | zero =>
    simp only [gen_loop, Except.ok.injEq] at h
    subst h
    simp
  | succ n ih =>
    rw [List.range'_succ]
    have hnot : i ∉ ctx.programs.arr.map (fun p => p.lang) :=
      fun hin => Nat.lt_irrefl i (hlow i hin)
    cases hreq : is_requested args i with
    | false =>
      rw [gen_loop_skip _ _ _ _ _ _ _ _ _ _ _ hreq] at h
      rw [List.filter_cons_of_neg (by simp [hreq])]
      exact ih (i + 1) w ctx (by omega) (fun l hl => Nat.lt_succ_of_lt (hlow l hl)) h
    | true =>
      rw [List.filter_cons_of_pos (by simp [hreq])]
      have key : ∀ c0 c : lx.m.WriteContext, c0.programs = ctx.programs →
          lxtap_write_shader_sources_and_blobs inp (spirvcross i) (bytecode i) i u_vs u_fs c0 =
            some c →
          gen_loop args inp spirvcross bytecode check_errors u_vs u_fs n (i + 1) true c =
            .ok ctx' →
          ctx'.programs.arr.map (fun p => p.lang) =
            ctx.programs.arr.map (fun p => p.lang) ++
              i :: (List.range' (i + 1) n).filter (is_requested args) := by
        intro c0 c hc0 hp hg
        have hc := payload_pass_create _ _ _ _ _ _ _ _ hstage (by omega)
          (by rw [hc0]; exact hnot) hp
        rw [hc0] at hc
        have := ih (i + 1) true c (by omega) (by
          intro l hl
          rw [hc] at hl
          rcases List.mem_append.1 hl with hl | hl
          · exact Nat.lt_succ_of_lt (hlow l hl)
          · simp at hl; omega) hg
        rw [this, hc]
        simp
      cases w with
      | false =>
        rw [gen_loop_first _ _ _ _ _ _ _ _ _ _ hreq] at h
        by_cases hc : check_errors inp (spirvcross i) i = true
        · simp [hc] at h
        · simp only [hc, if_false] at h
          by_cases hl : inp.programs.length ≠ 1
          · simp [hl] at h
          · simp only [hl, if_false] at h
            cases hh : lxtap_write_header inp (spirvcross i) ctx with
            | none => simp [hh] at h
            | some hd =>
              simp only [hh] at h
              cases hp : lxtap_write_shader_sources_and_blobs inp (spirvcross i) (bytecode i) i
                  u_vs u_fs hd with
              | none => simp [hp] at h
              | some c =>
                simp only [hp] at h
                exact key hd c (lxtap_write_header_programs _ _ _ _ hh) hp h
      | true =>
        rw [gen_loop_later _ _ _ _ _ _ _ _ _ _ hreq] at h
        by_cases hc : check_errors inp (spirvcross i) i = true
        · simp [hc] at h
        · simp only [hc, if_false] at h
          cases hp : lxtap_write_shader_sources_and_blobs inp (spirvcross i) (bytecode i) i
              u_vs u_fs ctx with
          | none => simp [hp] at h
          | some c =>
            simp only [hp] at h
            exact key ctx c rfl hp h

end shdc

namespace shdc

/-! ## One program per language -/

theorem payload_pass_reuse (inp : input_t) (spirvcross : spirvcross_t) (bytecode : bytecode_t)
    (slang : Nat) (u_vs u_fs : lx.m.source_type) (ctx ctx' : lx.m.WriteContext)
    (hin : slang ∈ ctx.programs.arr.map (fun p => p.lang))
    (h : lxtap_write_shader_sources_and_blobs inp spirvcross bytecode slang u_vs u_fs ctx =
      some ctx') :
    ctx'.programs.arr.map (fun p => p.lang) = ctx.programs.arr.map (fun p => p.lang) := by
  obtain ⟨-, -, -, -, hl⟩ := payload_pass_frame _ _ _ _ _ _ _ _ h
  exact snippet_loop_reuse _ _ _ _ _ _ _ _ _ hin hl

theorem payload_passes_langs (inp : input_t) (spirvcross : Nat → spirvcross_t)
    (bytecode : Nat → bytecode_t) (u_vs u_fs : lx.m.source_type) (langs : List Nat)
    (ctx ctx' : lx.m.WriteContext)
    (hstage : ∃ s ∈ inp.snippets, is_stage s = true)
    (hnodup : langs.Nodup) (hlt : ∀ l ∈ langs, l < 256)
    (hnew : ∀ l ∈ langs, l ∉ ctx.programs.arr.map (fun p => p.lang))
    (h : payload_passes inp spirvcross bytecode u_vs u_fs langs ctx = some ctx') :
    ctx'.programs.arr.map (fun p => p.lang) =
      ctx.programs.arr.map (fun p => p.lang) ++ langs := by
  induction langs generalizing ctx with
  | nil =>
    simp only [payload_passes, Option.some.injEq] at h
    subst h
    simp
  | cons l rest ih =>
    unfold payload_passes at h
    cases hp : lxtap_write_shader_sources_and_blobs inp (spirvcross l) (bytecode l) l
        u_vs u_fs ctx with
    | none => simp [hp] at h
    | some c =>
      simp only [hp] at h
      have hc := payload_pass_create _ _ _ _ _ _ _ _ hstage (hlt l (List.mem_cons_self l rest))
        (hnew l (List.mem_cons_self l rest)) hp
      have hnd := List.nodup_cons.1 hnodup
      rw [ih c hnd.2 (fun x hx => hlt x (List.mem_cons_of_mem l hx)) (by
        intro x hx hmem
        rw [hc] at hmem
        rcases List.mem_append.1 hmem with hm | hm
        · exact hnew x (List.mem_cons_of_mem l hx) hm
        · simp only [List.mem_singleton] at hm
          subst hm
          exact hnd.1 hx) h, hc]
      simp

theorem requested_eq (args : args_t) :
    requested args = (List.range' 0 slang_t.NUM).filter (is_requested args) := by
  unfold requested
  rw [List.range_eq_range']

theorem requested_nodup (args : args_t) : (requested args).Nodup := by
  unfold requested
  exact List.Nodup.filter _ (List.nodup_range _)

theorem find_current_p_first (slang : Nat) (mprogs : List lx.m.program_t) (i : Nat)
    (h : find_current_p slang mprogs = some i) :
    ∀ (j : Nat) (q : lx.m.program_t), j < i → mprogs[j]? = some q → q.lang ≠ slang := by
  induction mprogs generalizing i with
  | nil => simp [find_current_p] at h
  | cons a as ih =>
    unfold find_current_p at h
    by_cases ha : a.lang = slang
    · simp only [ha, if_true, Option.some.injEq] at h
      subst h
      intro j q hj
      exact absurd hj (Nat.not_lt_zero j)
    · simp only [ha, if_false, Option.map_eq_some'] at h
      obtain ⟨k, hk, rfl⟩ := h
      intro j q hj hq
      cases j with
      | zero =>
        simp only [List.getElem?_cons_zero, Option.some.injEq] at hq
        subst hq
        exact ha
      | succ j' =>
        simp only [List.getElem?_cons_succ] at hq
        exact ih k hk j' q (by omega) hq

theorem find_current_p_congr (slang : Nat) (l l' : List lx.m.program_t)
    (h : l.map (fun p => p.lang) = l'.map (fun p => p.lang)) :
    find_current_p slang l = find_current_p slang l' := by
  induction l generalizing l' with
  | nil =>
    cases l' with
    | nil => rfl
    | cons b bs => simp at h
  | cons a as ih =>
    cases l' with
    | nil => simp at h
    | cons b bs =>
      simp only [List.map_cons, List.cons.injEq] at h
      unfold find_current_p
      rw [h.1, ih bs h.2]

theorem set_same {α : Type} (l : List α) (i : Nat) (p : α) (h : l[i]? = some p) :
    l.set i p = l := by
  induction l generalizing i with
  | nil => simp
  | cons a as ih =>
    cases i with
    | zero =>
      simp only [List.getElem?_cons_zero, Option.some.injEq] at h
      simp [h]
    | succ j =>
      simp only [List.getElem?_cons_succ] at h
      simp [ih j h]

theorem getElem?_set_at {α : Type} (l : List α) (i : Nat) (p a : α) (h : l[i]? = some p) :
    (l.set i a)[i]? = some a := by
  induction l generalizing i with
  | nil => simp at h
  | cons b bs ih =>
    cases i with
    | zero => simp
    | succ j =>
      simp only [List.getElem?_cons_succ] at h
      simpa using ih j h

theorem set_twice {α : Type} (l : List α) (i : Nat) (a b : α) :
    (l.set i a).set i b = l.set i b := by
  induction l generalizing i with
  | nil => simp
  | cons c cs ih =>
    cases i with
    | zero => simp
    | succ j => simp [ih j]

/-- The payload loop for a language that has a program: the program it
finds, the first with the language tag, gets a new `vs`; the list is
otherwise as it was, nothing is pushed. -/
theorem snippet_loop_reuse_at (spirvcross : spirvcross_t) (bytecode : bytecode_t) (slang : Nat)
    (u_vs u_fs : lx.m.source_type) (snippets : List snippet_t) (snippet_index : Nat)
    (mprogs mprogs' : List lx.m.program_t) (i : Nat) (p : lx.m.program_t)
    (hf : find_current_p slang mprogs = some i) (hp : mprogs[i]? = some p)
    (h : snippet_loop spirvcross bytecode slang u_vs u_fs snippets snippet_index mprogs =
      some mprogs') :
    ∃ vs', mprogs' = mprogs.set i { p with vs := vs' } ∧
      (vs' = p.vs ∨ ∃ (k : Nat) (src : spirvcross_source_t),
        source_of spirvcross k = some src ∧
        vs' = stored src.source_code (blob_of bytecode k)) := by
  induction snippets generalizing snippet_index mprogs p with
  | nil =>
    simp only [snippet_loop, Option.some.injEq] at h
    subst h
    exact ⟨p.vs, (set_same mprogs i p hp).symm, Or.inl rfl⟩
  | cons s rest ih =>
    unfold snippet_loop at h
    cases hb : loop_body spirvcross bytecode slang u_vs u_fs s snippet_index mprogs with
    | none => simp [hb] at h
    | some m1 =>
      simp only [hb] at h
      cases hst : is_stage s with
      | false =>
        rw [loop_body_skip _ _ _ _ _ _ _ _ hst] at hb
        have hm : m1 = mprogs := (Option.some.inj hb).symm
        subst hm
        exact ih _ _ p hf hp h
      | true =>
        obtain ⟨src, hsrc, hcase⟩ := loop_body_stage _ _ _ _ _ _ _ _ _ hst hb
        rcases hcase with ⟨i', p', hf', hp', -, hm⟩ | ⟨hnot, -⟩
        · rw [hf] at hf'
          have hi : i = i' := Option.some.inj hf'
          subst hi
          rw [hp] at hp'
          have hpp : p = p' := Option.some.inj hp'
          subst hpp
          have hlang : m1.map (fun q => q.lang) = mprogs.map (fun q => q.lang) := by
            rw [hm]
            refine map_set_same (fun q => q.lang) mprogs i p _ hp ?_
            rfl
          have hf1 : find_current_p slang m1 = some i := by
            rw [find_current_p_congr slang m1 mprogs hlang]; exact hf
          have hp1 : m1[i]? =
              some { p with vs := stored src.source_code (blob_of bytecode snippet_index) } := by
            rw [hm]; exact getElem?_set_at mprogs i p _ hp
          obtain ⟨vs', hres, hvs⟩ := ih _ _ _ hf1 hp1 h
          refine ⟨vs', ?_, ?_⟩
          · rw [hres, hm, set_twice]
          · rcases hvs with hvs | hvs
            · exact Or.inr ⟨snippet_index, src, hsrc, hvs⟩
            · exact Or.inr hvs
        · rw [(find_current_p_none slang mprogs).2 hnot] at hf
          exact absurd hf (by simp)

theorem find_current_p_of_mem (slang : Nat) (mprogs : List lx.m.program_t)
    (hin : slang ∈ mprogs.map (fun p => p.lang)) :
    ∃ i, find_current_p slang mprogs = some i := by
  cases hf : find_current_p slang mprogs with
  | some i => exact ⟨i, rfl⟩
  | none => exact absurd hin ((find_current_p_none slang mprogs).1 hf)

theorem set_last {α : Type} (l : List α) (a b : α) :
    (l ++ [a]).set l.length b = l ++ [b] := by
  induction l with
  | nil => rfl
  | cons c cs ih => simp [ih]

/-- The payload loop for a language below 256 that has no program, over
snippets of which one is a vertex or fragment snippet: one program with the
language tag is pushed, with the `fs` of its creation, and the programs
already there are as they were. -/
theorem snippet_loop_create_at (spirvcross : spirvcross_t) (bytecode : bytecode_t)
    (slang : Nat) (u_vs u_fs : lx.m.source_type) (snippets : List snippet_t)
    (snippet_index : Nat) (mprogs mprogs' : List lx.m.program_t) (hlt : slang < 256)
    (hnot : slang ∉ mprogs.map (fun p => p.lang))
    (hany : ∃ s ∈ snippets, is_stage s = true)
    (h : snippet_loop spirvcross bytecode slang u_vs u_fs snippets snippet_index mprogs =
      some mprogs') :
    ∃ q : lx.m.program_t, mprogs' = mprogs ++ [q] ∧ q.lang = slang ∧
      q.fs = ⟨u_fs, lx.m.bytes.ctor []⟩ := by
  induction snippets generalizing snippet_index mprogs with
  | nil => simp at hany
  | cons s rest ih =>
    unfold snippet_loop at h
    cases hb : loop_body spirvcross bytecode slang u_vs u_fs s snippet_index mprogs with
    | none => simp [hb] at h
    | some m1 =>
      simp only [hb] at h
      cases hst : is_stage s with
      | false =>
        rw [loop_body_skip _ _ _ _ _ _ _ _ hst] at hb
        have hm : m1 = mprogs := (Option.some.inj hb).symm
        subst hm
        obtain ⟨s', hs', hst'⟩ := hany
        rcases List.mem_cons.1 hs' with rfl | hmem
        · rw [hst] at hst'; exact absurd hst' (by simp)
        · exact ih _ _ hnot ⟨s', hmem, hst'⟩ h
      | true =>
        obtain ⟨src, -, hcase⟩ := loop_body_stage _ _ _ _ _ _ _ _ _ hst hb
        rcases hcase with ⟨i, p, hf, -, -, -⟩ | ⟨-, hm⟩
        · rw [(find_current_p_none slang mprogs).2 hnot] at hf
          exact absurd hf (by simp)
        · have hin : slang ∈ m1.map (fun p => p.lang) := by
            rw [hm]; simp [new_prog, Nat.mod_eq_of_lt hlt]
          obtain ⟨i, hf1⟩ := find_current_p_of_mem slang m1 hin
          obtain ⟨p, hp1, hpl⟩ := find_current_p_some slang m1 i hf1
          have hi : i = mprogs.length := by
            by_cases hlt' : i < mprogs.length
            · exfalso
              rw [hm, List.getElem?_append_left hlt'] at hp1
              exact hnot (List.mem_map.2 ⟨p, List.getElem?_mem hp1, hpl⟩)
            · have hlen : i < m1.length := by
                by_contra hge
                rw [List.getElem?_eq_none (by omega)] at hp1
                exact absurd hp1 (by simp)
              rw [hm] at hlen
              simp at hlen
              omega
          subst hi
          obtain ⟨vs', hres, -⟩ := snippet_loop_reuse_at _ _ _ _ _ _ _ _ _ _ p hf1 hp1 h
          have hp : p = { new_prog slang u_vs u_fs with
              vs := stored src.source_code (blob_of bytecode snippet_index) } := by
            rw [hm] at hp1
            simpa using hp1.symm
          refine ⟨{ p with vs := vs' }, ?_, hpl, ?_⟩
          · rw [hres, hm, set_last]
          · rw [hp]; rfl

/-- C11: for a material with at least one vertex or fragment snippet, (1) the
payload pass run from the fresh context for the languages of any list of
distinct language tags (below 256, as every language tag is), in the list's
order, leaves, when no pass stops on its assertion, exactly one program per
language, with the language tags of the list in that order; (2) so does the
driver's loop when it completes: the tags of its program list are the
requested languages in the order it meets them, pairwise distinct; (3) the
payload pass for a language that already has a program reuses that program:
the program it updates is the one with the language tag (the first such), at
the same place in the list, only its `vs` can change (to the payload stored
for one of the snippets), every other program is as it was and no program is
added; (4) the payload pass for a language below 256 that has no program
pushes exactly one program, with that language tag, and leaves the programs
already there as they were. -/
theorem one_program_per_language (inp : input_t) (u_vs u_fs : lx.m.source_type)
    (hstage : ∃ s ∈ inp.snippets, is_stage s = true) :
    (∀ (spirvcross : Nat → spirvcross_t) (bytecode : Nat → bytecode_t) (langs : List Nat)
        (ctx : lx.m.WriteContext), langs.Nodup → (∀ l ∈ langs, l < 256) →
        payload_passes inp spirvcross bytecode u_vs u_fs langs mat_ctx = some ctx →
        ctx.programs.arr.map (fun p => p.lang) = langs) ∧
    (∀ (args : args_t) (spirvcross : Nat → spirvcross_t) (bytecode : Nat → bytecode_t)
        (check_errors : input_t → spirvcross_t → Nat → Bool) (ctx : lx.m.WriteContext),
        gen_loop args inp spirvcross bytecode check_errors u_vs u_fs slang_t.NUM 0 false
          mat_ctx = .ok ctx →
        ctx.programs.arr.map (fun p => p.lang) = requested args ∧
        (ctx.programs.arr.map (fun p => p.lang)).Nodup ∧
        ctx.programs.arr.length = (requested args).length) ∧
    (∀ (spirvcross : spirvcross_t) (bytecode : bytecode_t) (slang : Nat)
        (ctx ctx' : lx.m.WriteContext), slang ∈ ctx.programs.arr.map (fun p => p.lang) →
        lxtap_write_shader_sources_and_blobs inp spirvcross bytecode slang u_vs u_fs ctx =
          some ctx' →
        (∃ (i : Nat) (p : lx.m.program_t) (vs' : lx.m.shader_t),
          ctx.programs.arr[i]? = some p ∧ p.lang = slang ∧
          (∀ (j : Nat) (q : lx.m.program_t), j < i → ctx.programs.arr[j]? = some q →
            q.lang ≠ slang) ∧
          ctx'.programs.arr = ctx.programs.arr.set i { p with vs := vs' } ∧
          (vs' = p.vs ∨ ∃ (k : Nat) (src : spirvcross_source_t),
            source_of spirvcross k = some src ∧
            vs' = stored src.source_code (blob_of bytecode k))) ∧
        ctx'.programs.arr.map (fun p => p.lang) = ctx.programs.arr.map (fun p => p.lang) ∧
        ctx'.programs.arr.length = ctx.programs.arr.length) ∧
    (∀ (spirvcross : spirvcross_t) (bytecode : bytecode_t) (slang : Nat)
        (ctx ctx' : lx.m.WriteContext), slang < 256 →
        slang ∉ ctx.programs.arr.map (fun p => p.lang) →
        lxtap_write_shader_sources_and_blobs inp spirvcross bytecode slang u_vs u_fs ctx =
          some ctx' →
        ∃ q : lx.m.program_t, ctx'.programs.arr = ctx.programs.arr ++ [q] ∧ q.lang = slang ∧
          q.fs = ⟨u_fs, lx.m.bytes.ctor []⟩) := by
  refine ⟨?_, ?_, ?_, ?_⟩
  · intro spirvcross bytecode langs ctx hnd hlt h
    have := payload_passes_langs inp spirvcross bytecode u_vs u_fs langs mat_ctx ctx hstage hnd
      hlt (by intro l _; simp [mat_ctx]) h
    simpa [mat_ctx] using this
  · intro args spirvcross bytecode check_errors ctx h
    have hl := gen_loop_langs args inp spirvcross bytecode check_errors u_vs u_fs slang_t.NUM 0
      false mat_ctx ctx hstage (by decide) (by intro l hl; simp [mat_ctx] at hl) h
    have hl' : ctx.programs.arr.map (fun p => p.lang) = requested args := by
      rw [requested_eq, hl]; simp [mat_ctx]
    refine ⟨hl', ?_, ?_⟩
    · rw [hl']; exact requested_nodup args
    · rw [← hl']; simp
  · intro spirvcross bytecode slang ctx ctx' hin h
    have hr := payload_pass_reuse inp spirvcross bytecode slang u_vs u_fs ctx ctx' hin h
    obtain ⟨-, -, -, -, hl⟩ := payload_pass_frame _ _ _ _ _ _ _ _ h
    obtain ⟨i, hf⟩ := find_current_p_of_mem slang ctx.programs.arr hin
    obtain ⟨p, hp, hpl⟩ := find_current_p_some slang ctx.programs.arr i hf
    obtain ⟨vs', hres, hvs⟩ := snippet_loop_reuse_at _ _ _ _ _ _ _ _ _ i p hf hp hl
    refine ⟨⟨i, p, vs', hp, hpl, find_current_p_first slang ctx.programs.arr i hf, hres, hvs⟩,
      hr, ?_⟩
    have := congrArg List.length hr
    simpa using this
  · intro spirvcross bytecode slang ctx ctx' hlt hnot h
    obtain ⟨-, -, -, -, hl⟩ := payload_pass_frame _ _ _ _ _ _ _ _ h
    exact snippet_loop_create_at _ _ _ _ _ _ _ _ _ hlt hnot hstage hl

/-- Witness of C11: the material `one_program`. With GLSL330 and HLSL5
requested the driver's loop completes with two programs, tagged 0 and 3. On
the context `two_tagged`, which has a program for GLSL330 with payload `G`
and one for HLSL5 with payload `H`, the pass for HLSL5 leaves the first
program as it was and stores the fragment source `f` in the second. -/
theorem one_program_per_language_witness :
    (∃ s ∈ one_program.snippets, is_stage s = true) ∧
    (gen_loop two_languages one_program sources_per_language no_bytecode no_errors 0 0
      slang_t.NUM 0 false mat_ctx = .ok two_languages_result ∧
    two_languages_result.programs.arr.map (fun p => p.lang) = requested two_languages ∧
    (two_languages_result.programs.arr.map (fun p => p.lang)).Nodup ∧
    two_languages_result.programs.arr.length = (requested two_languages).length) ∧
    (lxtap_write_shader_sources_and_blobs one_program one_program_sources ⟨[]⟩ 3 0 0
        two_tagged =
      some { two_tagged with programs :=
        ⟨[⟨0, ⟨0, lx.m.bytes.ctor [71]⟩, ⟨0, lx.m.bytes.ctor []⟩⟩,
          ⟨3, ⟨0, lx.m.bytes.ctor [102]⟩, ⟨0, lx.m.bytes.ctor []⟩⟩]⟩ } ∧
    ∃ (i : Nat) (p : lx.m.program_t) (vs' : lx.m.shader_t),
      two_tagged.programs.arr[i]? = some p ∧ p.lang = 3 ∧
      [⟨0, ⟨0, lx.m.bytes.ctor [71]⟩, ⟨0, lx.m.bytes.ctor []⟩⟩,
        ⟨3, ⟨0, lx.m.bytes.ctor [102]⟩, ⟨0, lx.m.bytes.ctor []⟩⟩] =
        two_tagged.programs.arr.set i { p with vs := vs' }) :=
  ⟨⟨⟨.VS⟩, by decide, rfl⟩,
    ⟨rfl, (one_program_per_language one_program 0 0 ⟨⟨.VS⟩, by decide, rfl⟩).2.1 two_languages
      sources_per_language no_bytecode no_errors two_languages_result rfl⟩,
    rfl,
    let ⟨⟨i, p, vs', h1, h2, _, h4, _⟩, _⟩ :=
      (one_program_per_language one_program 0 0 ⟨⟨.VS⟩, by decide, rfl⟩).2.2.1
        one_program_sources ⟨[]⟩ 3 two_tagged
        { two_tagged with programs :=
          ⟨[⟨0, ⟨0, lx.m.bytes.ctor [71]⟩, ⟨0, lx.m.bytes.ctor []⟩⟩,
            ⟨3, ⟨0, lx.m.bytes.ctor [102]⟩, ⟨0, lx.m.bytes.ctor []⟩⟩]⟩ }
        (by decide) rfl
    ⟨i, p, vs', h1, h2, h4⟩⟩

end shdc

namespace shdc

/-! ## Reflection comes from the first language -/

/-- C12: when the driver's loop completes for arguments whose first requested
language is `i0` (the loop then has found exactly one program), the attribute
list, both uniform block optionals and the texture optional of the context it
ends with are those of the reflection pass run once, on the fresh context,
with the sources of `i0`: the reflection of the languages requested after
`i0` is neither appended nor merged. -/
theorem reflection_from_first_language (args : args_t) (inp : input_t)
    (spirvcross : Nat → spirvcross_t) (bytecode : Nat → bytecode_t)
    (check_errors : input_t → spirvcross_t → Nat → Bool) (u_vs u_fs : lx.m.source_type)
    (i0 : Nat) (rest : List Nat) (ctx : lx.m.WriteContext)
    (hreq : requested args = i0 :: rest)
    (h : gen_loop args inp spirvcross bytecode check_errors u_vs u_fs slang_t.NUM 0 false
      mat_ctx = .ok ctx) :
    inp.programs.length = 1 ∧
    ∃ hd, lxtap_write_header inp (spirvcross i0) mat_ctx = some hd ∧
      ctx.attrs = hd.attrs ∧ ctx.vs_uniform_block = hd.vs_uniform_block ∧
      ctx.fs_uniform_block = hd.fs_uniform_block ∧ ctx.fs_textures = hd.fs_textures := by
  rw [requested_eq] at hreq
  refine ⟨?_, gen_loop_reflection args inp spirvcross bytecode check_errors u_vs u_fs
    slang_t.NUM 0 i0 rest mat_ctx ctx hreq h⟩
  by_contra hl
  rw [gen_loop_usage args inp spirvcross bytecode check_errors u_vs u_fs slang_t.NUM 0 i0 rest
    mat_ctx hreq hl] at h
  split at h <;> exact absurd h (by simp)

/-- Witness of C12: the material `one_program` with GLSL330 and HLSL5
requested, the two languages having different reflections; the loop
completes and the reflection sections are those of GLSL330 alone. -/
theorem reflection_from_first_language_witness :
    requested two_languages = 0 :: [3] ∧
    gen_loop two_languages one_program sources_per_language no_bytecode no_errors 0 0
      slang_t.NUM 0 false mat_ctx = .ok two_languages_result ∧
    one_program.programs.length = 1 ∧
    ∃ hd, lxtap_write_header one_program (sources_per_language 0) mat_ctx = some hd ∧
      two_languages_result.attrs = hd.attrs ∧
      two_languages_result.vs_uniform_block = hd.vs_uniform_block ∧
      two_languages_result.fs_uniform_block = hd.fs_uniform_block ∧
      two_languages_result.fs_textures = hd.fs_textures :=
  ⟨rfl, rfl, reflection_from_first_language two_languages one_program sources_per_language
    no_bytecode no_errors 0 0 0 [3] two_languages_result rfl rfl⟩

end shdc

namespace shdc

/-! ## More than one program -/

/-- C16, refuted as stated: the material `two_programs` describes two
programs. With no target language requested the driver performs no check and
writes the 11-byte file of the empty context; with GLSL330 requested and a
check that reports an error, the driver returns that error, which is not the
usage error. -/
theorem no_language_no_usage_error :
    two_programs.programs.length = 2 ∧
    lxtap_t.gen ⟨0⟩ two_programs (fun _ => two_programs_sources) no_bytecode no_errors 0 0
        true =
      .written [0xCF, 0xBA, 0x01, 0x00, 0, 0, 0, 0, 0, 0, 0] ∧
    lxtap_t.gen ⟨1⟩ two_programs (fun _ => two_programs_sources) no_bytecode
        (fun _ _ _ => true) 0 0 true =
      .check_failed :=
  ⟨rfl, rfl, rfl⟩

/-- C16, amended: for an input that describes more than one program, whenever
at least one target language is requested the driver stops at the first
requested language `i0` and never reaches the generation of the output buffer
or the write of the output file: it returns the error of
`output_t::check_errors` if that reports one for `i0`, and aborts with the
usage error otherwise. When no target language is requested it checks
nothing and goes on to write the file of the empty context. -/
theorem more_than_one_program (args : args_t) (inp : input_t)
    (spirvcross : Nat → spirvcross_t) (bytecode : Nat → bytecode_t)
    (check_errors : input_t → spirvcross_t → Nat → Bool) (u_vs u_fs : lx.m.source_type)
    (fopen_ok : Bool) (hmany : 1 < inp.programs.length) :
    (∀ (i0 : Nat) (rest : List Nat), requested args = i0 :: rest →
      lxtap_t.gen args inp spirvcross bytecode check_errors u_vs u_fs fopen_ok =
        (if check_errors inp (spirvcross i0) i0 then .check_failed else .usage_exit)) ∧
    (requested args = [] →
      lxtap_t.gen args inp spirvcross bytecode check_errors u_vs u_fs fopen_ok =
        (if fopen_ok then .written [0xCF, 0xBA, 0x01, 0x00, 0, 0, 0, 0, 0, 0, 0]
          else .open_failed)) := by
  refine ⟨?_, ?_⟩
  · intro i0 rest hreq
    rw [requested_eq] at hreq
    unfold lxtap_t.gen
    rw [gen_loop_usage args inp spirvcross bytecode check_errors u_vs u_fs slang_t.NUM 0 i0 rest
      mat_ctx hreq (by omega)]
    cases check_errors inp (spirvcross i0) i0 <;> rfl
  · intro hnone
    rw [requested_eq] at hnone
    unfold lxtap_t.gen
    rw [gen_loop_idle args inp spirvcross bytecode check_errors u_vs u_fs slang_t.NUM 0 false
      mat_ctx hnone]
    cases fopen_ok <;> rfl

/-- Witness of C16 amended: the material `two_programs` with GLSL330 and
HLSL5 requested and a check that finds nothing: the usage error. -/
theorem more_than_one_program_witness :
    1 < two_programs.programs.length ∧ requested two_languages = 0 :: [3] ∧
    lxtap_t.gen two_languages two_programs (fun _ => two_programs_sources) no_bytecode
        no_errors 0 0 true =
      (if no_errors two_programs two_programs_sources 0 then .check_failed else .usage_exit) :=
  ⟨by decide, rfl,
    (more_than_one_program two_languages two_programs (fun _ => two_programs_sources)
      no_bytecode no_errors 0 0 true (by decide)).1 0 [3] rfl⟩

end shdc

namespace shdc

/-! ## The fragment stage is never written -/

theorem payload_pass_fs (inp : input_t) (spirvcross : spirvcross_t) (bytecode : bytecode_t)
    (slang : Nat) (u_vs u_fs : lx.m.source_type) (ctx ctx' : lx.m.WriteContext)
    (h : lxtap_write_shader_sources_and_blobs inp spirvcross bytecode slang u_vs u_fs ctx =
      some ctx') :
    ∃ k, ctx'.programs.arr.map (fun p => p.fs) =
      ctx.programs.arr.map (fun p => p.fs) ++ List.replicate k ⟨u_fs, lx.m.bytes.ctor []⟩ := by
  obtain ⟨-, -, -, -, hl⟩ := payload_pass_frame _ _ _ _ _ _ _ _ h
  exact snippet_loop_fs _ _ _ _ _ _ _ _ _ hl

/-- The pass over a vertex snippet followed by a fragment snippet, from an
empty program list, for a language below 256. -/
theorem vs_then_fs (spirvcross : spirvcross_t) (bytecode : bytecode_t) (slang : Nat)
    (u_vs u_fs : lx.m.source_type) (mprogs' : List lx.m.program_t) (hlt : slang < 256)
    (h : snippet_loop spirvcross bytecode slang u_vs u_fs [⟨.VS⟩, ⟨.FS⟩] 0 [] = some mprogs') :
    ∃ src, source_of spirvcross 1 = some src ∧
      mprogs' = [{ lang := slang, vs := stored src.source_code (blob_of bytecode 1),
                   fs := ⟨u_fs, lx.m.bytes.ctor []⟩ }] := by
  unfold snippet_loop at h
  cases hb0 : loop_body spirvcross bytecode slang u_vs u_fs ⟨.VS⟩ 0 [] with
  | none => simp [hb0] at h
  | some m1 =>
    simp only [hb0] at h
    obtain ⟨src0, -, hcase0⟩ := loop_body_stage _ _ _ _ _ _ _ _ _ (by decide) hb0
    have hm1 : m1 = [{ new_prog slang u_vs u_fs with
        vs := stored src0.source_code (blob_of bytecode 0) }] := by
      rcases hcase0 with ⟨i, p, hf, -⟩ | ⟨-, hm⟩
      · simp [find_current_p] at hf
      · simpa using hm
    unfold snippet_loop at h
    cases hb1 : loop_body spirvcross bytecode slang u_vs u_fs ⟨.FS⟩ (0 + 1) m1 with
    | none => simp [hb1] at h
    | some m2 =>
      simp only [hb1, snippet_loop, Option.some.injEq] at h
      subst h
      obtain ⟨src1, hs1, hcase1⟩ := loop_body_stage _ _ _ _ _ _ _ _ _ (by decide) hb1
      refine ⟨src1, hs1, ?_⟩
      rcases hcase1 with ⟨i, p, hf, hp, -, hm⟩ | ⟨hnot, -⟩
      · rw [hm1] at hf hp
        have hi : i = 0 := by
          simp only [find_current_p, new_prog, Nat.mod_eq_of_lt hlt, if_true,
            Option.some.injEq] at hf
          exact hf.symm
        subst hi
        simp only [List.getElem?_cons_zero, Option.some.injEq] at hp
        rw [hm, hm1, ← hp]
        simp [new_prog, Nat.mod_eq_of_lt hlt]
      · rw [hm1] at hnot
        simp [new_prog, Nat.mod_eq_of_lt hlt] at hnot

/-- C19: (1) the payload pass never modifies the `fs` stage of a program:
after it the `fs` stages are those before it, followed by the `fs` of the
programs it created, each with the empty payload of its creation; (2) the
step for a fragment snippet is the step for a vertex snippet taken after
copying the program's `fs` over its `vs`, and it ends with the snippet's
payload kind and bytes in `vs` and with `fs` as it was; (3) hence, on the
fresh context and for a language below 256, a vertex snippet followed by a
fragment snippet leaves one program whose `vs` holds the payload of the
fragment snippet (snippet 1) and whose `fs` has the empty payload. -/
theorem payload_pass_writes_vs_only (inp : input_t) (spirvcross : spirvcross_t)
    (bytecode : bytecode_t) (slang : Nat) (u_vs u_fs : lx.m.source_type) :
    (∀ ctx ctx' : lx.m.WriteContext,
      lxtap_write_shader_sources_and_blobs inp spirvcross bytecode slang u_vs u_fs ctx =
        some ctx' →
      ∃ k, ctx'.programs.arr.map (fun p => p.fs) =
        ctx.programs.arr.map (fun p => p.fs) ++
          List.replicate k ⟨u_fs, lx.m.bytes.ctor []⟩) ∧
    (∀ (source_code : List Nat) (blob : Option bytecode_blob_t) (p : lx.m.program_t),
      attach .FS source_code blob p = attach .VS source_code blob { p with vs := p.fs } ∧
      attach .FS source_code blob p =
        { lang := p.lang, vs := stored source_code blob, fs := p.fs }) ∧
    (∀ ctx' : lx.m.WriteContext, inp.snippets = [⟨.VS⟩, ⟨.FS⟩] → slang < 256 →
      lxtap_write_shader_sources_and_blobs inp spirvcross bytecode slang u_vs u_fs mat_ctx =
        some ctx' →
      ∃ src, source_of spirvcross 1 = some src ∧
        ctx'.programs.arr =
          [{ lang := slang, vs := stored src.source_code (blob_of bytecode 1),
             fs := ⟨u_fs, lx.m.bytes.ctor []⟩ }]) := by
  refine ⟨?_, ?_, ?_⟩
  · intro ctx ctx' h
    exact payload_pass_fs inp spirvcross bytecode slang u_vs u_fs ctx ctx' h
  · intro source_code blob p
    rw [attach_eq, attach_eq]
    exact ⟨rfl, rfl⟩
  · intro ctx' hs hlt h
    obtain ⟨-, -, -, -, hl⟩ := payload_pass_frame _ _ _ _ _ _ _ _ h
    rw [hs] at hl
    exact vs_then_fs spirvcross bytecode slang u_vs u_fs ctx'.programs.arr hlt hl

/-- Witness of C19: the material `one_program` with GLSL330; the pass
succeeds on the fresh context and leaves the fragment source `f` in `vs`. -/
theorem payload_pass_writes_vs_only_witness :
    one_program.snippets = [⟨.VS⟩, ⟨.FS⟩] ∧
    lxtap_write_shader_sources_and_blobs one_program one_program_sources ⟨[]⟩ 0 0 0 mat_ctx =
      some { mat_ctx with programs := ⟨[⟨0, ⟨0, lx.m.bytes.ctor [102]⟩,
        ⟨0, lx.m.bytes.ctor []⟩⟩]⟩ } ∧
    ∃ src, source_of one_program_sources 1 = some src ∧
      ({ mat_ctx with programs := ⟨[⟨0, ⟨0, lx.m.bytes.ctor [102]⟩,
          ⟨0, lx.m.bytes.ctor []⟩⟩]⟩ } : lx.m.WriteContext).programs.arr =
        [{ lang := 0, vs := stored src.source_code (blob_of ⟨[]⟩ 1),
           fs := ⟨0, lx.m.bytes.ctor []⟩ }] :=
  ⟨rfl, rfl, (payload_pass_writes_vs_only one_program one_program_sources ⟨[]⟩ 0 0 0).2.2 _ rfl
    (by decide) rfl⟩

end shdc

namespace lx.m

/-! ## Sixteen-bit fields wrap -/

/-- The `uint16_t` accumulator of `array::struct_size` ends as the sum of the
element sizes modulo 65536, whatever intermediate wraps there were. -/
theorem wrapped_sum (g : uniform_t → Nat) (l : List uniform_t) (a c : Nat) :
    (c + l.foldl (fun s t => (s + g t % 65536) % 65536) a) % 65536 =
      (c + a + (l.map g).sum) % 65536 := by
  induction l generalizing a with
  | nil => simp
  | cons t l ih =>
    simp only [List.foldl_cons, List.map_cons, List.sum_cons]
    rw [ih]
    omega

theorem shader_struct_size_at (k : source_type) (s : List Nat) (h : s.length = 65533) :
    shader_t.struct_size ⟨k, bytes.ctor s⟩ = 0 ∧
    (shader_t.write ⟨k, bytes.ctor s⟩ []).take 2 = [0, 0] := by
  have hs : shader_t.struct_size ⟨k, bytes.ctor s⟩ = 0 := by
    simp only [shader_t.struct_size, bytes.struct_size, bytes.ctor, h]
  refine ⟨hs, ?_⟩
  rw [shader_write_eq, hs]
  rfl

/-- C20: no `write` can fail, and the 16-bit fields wrap. For a string of any
length L, `bytes(s).write` appends the two bytes of L mod 65536, low byte
first, and then all L bytes of the string. The `struct_size()` of every
record is the sum modulo 65536 of the sizes its fields report (for the two
composite records these are the `struct_size()` of the nested records, so
without the nested size prefixes), and the first two bytes a record writes
are that value, low byte first. A shader stage with a payload of 65533 bytes
has `struct_size()` 0 and is written with the size prefix 00 00. -/
theorem sixteen_bit_fields_wrap :
    (∀ (s : List Nat) (oss : ostringstream),
      (bytes.ctor s).write oss =
        oss ++ [s.length % 65536 % 256, s.length % 65536 / 256] ++ s) ∧
    (∀ a : attr_t, a.struct_size = (2 + (a.name.str.length + 2) + 1) % 65536 ∧
      (a.write []).take 2 = [a.struct_size % 256, a.struct_size / 256]) ∧
    (∀ u : uniform_t, u.struct_size = ((u.name.str.length + 2) + 1 + 1 + 1) % 65536 ∧
      (u.write []).take 2 = [u.struct_size % 256, u.struct_size / 256]) ∧
    (∀ t : texture_t, t.struct_size = (1 + (t.name.str.length + 2) + 1) % 65536 ∧
      (t.write []).take 2 = [t.struct_size % 256, t.struct_size / 256]) ∧
    (∀ s : shader_t, s.struct_size = (1 + (s.source.str.length + 2)) % 65536 ∧
      (s.write []).take 2 = [s.struct_size % 256, s.struct_size / 256]) ∧
    (∀ p : program_t,
      p.struct_size =
        (1 + (1 + (p.vs.source.str.length + 2)) + (1 + (p.fs.source.str.length + 2))) % 65536 ∧
      (p.write []).take 2 = [p.struct_size % 256, p.struct_size / 256]) ∧
    (∀ b : uniform_block_t,
      b.struct_size =
        (1 + (b.name.str.length + 2) + 1 +
          (2 + (b.params.arr.map (fun u => (u.name.str.length + 2) + 1 + 1 + 1)).sum)) % 65536 ∧
      (b.write []).take 2 = [b.struct_size % 256, b.struct_size / 256]) ∧
    (∀ k : source_type,
      shader_t.struct_size ⟨k, bytes.ctor (List.replicate 65533 0)⟩ = 0 ∧
      (shader_t.write ⟨k, bytes.ctor (List.replicate 65533 0)⟩ []).take 2 = [0, 0]) := by
  refine ⟨?_, ?_, ?_, ?_, ?_, ?_, ?_, ?_⟩
  · intro s oss
    simp [bytes_write_eq, bytes.ctor, le16_high]
  · intro a
    refine ⟨?_, ?_⟩
    · simp only [attr_t.struct_size, bytes.struct_size]; omega
    · rw [attr_write_eq]; simp [attr_t.struct_size, le16_high]
  · intro u
    refine ⟨?_, ?_⟩
    · simp only [uniform_t.struct_size, bytes.struct_size]; omega
    · rw [uniform_write_eq]; simp [uniform_t.struct_size, le16_high]
  · intro t
    refine ⟨?_, ?_⟩
    · simp only [texture_t.struct_size, bytes.struct_size]; omega
    · rw [texture_write_eq]; simp [texture_t.struct_size, le16_high]
  · intro s
    refine ⟨?_, ?_⟩
    · simp only [shader_t.struct_size, bytes.struct_size]; omega
    · rw [shader_write_eq]; simp [shader_t.struct_size, le16_high]
  · intro p
    refine ⟨?_, ?_⟩
    · simp only [program_t.struct_size, shader_t.struct_size, bytes.struct_size]; omega
    · rw [program_write_eq]; simp [program_t.struct_size, le16_high]
  · intro b
    refine ⟨?_, ?_⟩
    · have hw := wrapped_sum (fun u => (u.name.str.length + 2) + 1 + 1 + 1) b.params.arr 0 2
      simp only [uniform_block_t.struct_size, array.struct_size, bytes.struct_size]
      have hf : (fun (s : Nat) (t : uniform_t) => (s + Record.struct_size t) % 65536) =
          (fun s t => (s + ((t.name.str.length + 2) + 1 + 1 + 1) % 65536) % 65536) := by
        funext s t
        show (s + uniform_t.struct_size t) % 65536 = _
        simp only [uniform_t.struct_size, bytes.struct_size]
        omega
      rw [hf]
      omega
    · rw [uniform_block_write_eq]; simp [uniform_block_t.struct_size, le16_high]
  · intro k
    exact shader_struct_size_at k (List.replicate 65533 0) (List.length_replicate _ _)

end lx.m
